import Mathlib

/-!
Verification of the core of `evalb-lcfrs.py` (evaluation of discontinuous
constituency bracketings) against its natural-language specification.

The Python source is shallowly embedded below:

* `export_split` models `export_split` (line splitting and field validation);
* `processGo` / `export_process_sentence` model `export_process_sentence`
  (the recursive yield extractor), with an explicit fuel parameter standing
  for the Python recursion stack;
* `read_from_export` models `read_from_export` restricted to its per-sentence
  body (the `#BOS`/`#EOS` scanning is abstracted: the input is given as a list
  of `(sentence number, record lines)` blocks);
* `evaluate` models `evaluate`, with Python exceptions made explicit in an
  `Except Err` monad and `float` division modelled on `ℚ` by `pydiv`, which
  errors on a zero denominator exactly where Python would raise
  `ZeroDivisionError`.

Python `Counter` objects (only ever built by increments from empty) are
modelled as `Multiset`; Python `dict`s (insertion ordered, update in place)
are modelled as association lists with `updateAssoc` / `lookupA`.
-/

deriving instance DecidableEq for Except

namespace EvalbLcfrs

attribute [local semireducible] Rat.add Rat.mul Rat.inv Rat.sub

/-! ### Generic helpers: Python dict / string primitives -/

/-- Python `dict` assignment `d[k] = v`: replace in place, else append. -/
def updateAssoc {β : Type _} : List (Int × β) → Int → β → List (Int × β)
  | [], k, v => [(k, v)]
  | (k', v') :: rest, k, v =>
    if k' = k then (k, v) :: rest else (k', v') :: updateAssoc rest k v

/-- Python `dict` lookup `d[k]` (as an option; `none` models `KeyError`). -/
def lookupA {β : Type _} : List (Int × β) → Int → Option β
  | [], _ => none
  | (k', v') :: rest, k => if k' = k then some v' else lookupA rest k

/-- Python `str.isdigit()` restricted to ASCII digits. -/
def pyIsdigit (s : String) : Bool :=
  !s.toList.isEmpty && s.toList.all Char.isDigit

/-- Digits to a natural number (most significant first). -/
def digitsToNat (l : List Char) : Nat :=
  l.foldl (fun a c => 10 * a + (c.toNat - '0'.toNat)) 0

/-- Python `int(s)` on a whitespace-free token: optional sign and digits;
`none` models the `ValueError` raised on a malformed literal. -/
def pyInt? (s : String) : Option Int :=
  match s.toList with
  | [] => none
  | c :: rest =>
    if c = '-' then
      if !rest.isEmpty && rest.all Char.isDigit then some (-(digitsToNat rest : Int))
      else none
    else if c = '+' then
      if !rest.isEmpty && rest.all Char.isDigit then some (digitsToNat rest : Int)
      else none
    else if (c :: rest).all Char.isDigit then some (digitsToNat (c :: rest) : Int)
    else none

/-- Truncate a character list at the first occurrence of `%%`
(Python: `line[:line.index(comment marker)]`). -/
def cutComment : List Char → List Char
  | [] => []
  | '%' :: '%' :: _ => []
  | c :: rest => c :: cutComment rest

/-- Worker for `pysplit`: scan the characters, accumulating the current
token (in reverse), emitting a token at each whitespace run. -/
def splitWSGo : List Char → List Char → List String
  | [], acc => match acc with
    | [] => []
    | _ => [String.mk acc.reverse]
  | c :: rest, acc =>
    if c.isWhitespace then
      match acc with
      | [] => splitWSGo rest []
      | _ => String.mk acc.reverse :: splitWSGo rest []
    else splitWSGo rest (c :: acc)

/-- Python `str.split()`: split on whitespace runs, dropping empty pieces. -/
def pysplit (s : String) : List String :=
  splitWSGo s.toList []

/-- Python `s.startswith(the hash mark)`: does the string begin with `#`? -/
def startsWithHash (s : String) : Bool :=
  match s.toList with
  | [] => false
  | c :: _ => c == '#'

/-- Python `s[1:]`: the string without its first character. -/
def strTail (s : String) : String := String.mk s.toList.tail

/-! ### Data model -/

/-- Field indices; Python constants `WORD, LEMMA, TAG, MORPH, FUNC, PARENT`. -/
def WORD : Nat := 0
def LEMMA : Nat := 1
def TAG : Nat := 2
def MORPH : Nat := 3
def FUNC : Nat := 4
def PARENT : Nat := 5

/-- A split record line: the list of its (up to six) fields. -/
abbrev Fields := List String

def nodeF (f : Fields) : String := f.getD WORD ""
def tagF (f : Fields) : String := f.getD TAG ""
def parentF (f : Fields) : String := f.getD PARENT ""

/-- A single bracketing: a non-terminal label together with the set of
terminal positions it dominates (class `Bracketing` in the source). -/
structure Bracketing where
  label : String
  terminals : Finset Nat
deriving DecidableEq

/-- A signature: the bag of bracketings of one sentence (a Python `Counter`). -/
abbrev Sig := Multiset Bracketing

/-- The explicit errors of the Python program: `IndexError`, `ValueError`
(with its message), `KeyError`, `RecursionError` (stack exhaustion, here fuel
exhaustion) and `ZeroDivisionError`. -/
inductive Err where
  | indexError : Err
  | valueError : String → Err
  | keyError : Err
  | recursionError : Err
  | zeroDivisionError : Err
deriving DecidableEq

/-- The evaluation parameters (the `param` dictionary with its defaults). -/
structure Param where
  DEBUG : Int := 0
  MAX_ERROR : Int := 10
  CUTOFF_LEN : Int := 9999
  LABELED : Int := 1
  DELETE_LABEL_FOR_LENGTH : Finset String := ∅
  DELETE_LABEL : Finset String := ∅
  DELETE_WORD : Finset String := ∅
  EQ_LABEL : Finset (String × String) := ∅
  EQ_WORD : Finset (String × String) := ∅
  DISC_ONLY : Int := 0
  TED : Int := 0
  DEP : Int := 0
deriving DecidableEq

/-- `param.get(key, ())` for the three label/word set entries, keyed by the
run-time string (the source passes the key name `delete_pos` as a string). -/
def paramGetLabels (p : Param) (key : String) : Finset String :=
  if key = "DELETE_LABEL" then p.DELETE_LABEL
  else if key = "DELETE_LABEL_FOR_LENGTH" then p.DELETE_LABEL_FOR_LENGTH
  else if key = "DELETE_WORD" then p.DELETE_WORD
  else ∅

def defaultParam : Param := {}

/-! ### `export_split` -/

/-- The body of `export_split` after comment truncation and whitespace
splitting: insert a dummy lemma when the fifth field is a number, truncate to
six fields, validate the node number and the parent number. -/
def export_split_fields (fields : List String) : Except Err (List String) :=
  match fields.get? 4 with
  | none => .error .indexError
  | some f4 =>
    let fields1 := if pyIsdigit f4 then fields.take 1 ++ "" :: fields.drop 1 else fields
    let fields2 := fields1.take 6
    let nodeCheck : Except Err Unit :=
      match fields2.get? WORD with
      | none => .error .indexError
      | some f0 =>
        if startsWithHash f0 then
          match pyInt? (strTail f0) with
          | none => .error (.valueError "invalid literal for int")
          | some nodenum =>
            if nodenum = 0 ∨ (500 ≤ nodenum ∧ nodenum ≤ 999) then .ok ()
            else .error (.valueError "node number must >= 500 and <= 999")
        else .ok ()
    match nodeCheck with
    | .error e => .error e
    | .ok _ =>
      match fields2.get? PARENT with
      | none => .error .indexError
      | some ps =>
        match pyInt? ps with
        | none => .error (.valueError "invalid literal for int")
        | some parent =>
          if (500 ≤ parent ∧ parent ≤ 999) ∨ parent = 0 then .ok fields2
          else .error (.valueError "the parent number must be 0 or >= 500 and <= 999")

/-- `export_split`: take a line in export format and split it into fields,
adding a dummy lemma field; everything behind the parent number is ignored. -/
def export_split (line : String) : Except Err (List String) :=
  export_split_fields (pysplit (String.mk (cutComment line.toList)))

/-! ### `export_process_sentence`: the Yield Extractor -/

/-- The mutable state of `export_process_sentence`: `tuples_by_nodenum`
(node id ↦ (label, set of dominated terminal positions), insertion ordered)
and the `pos_tags` set of `(line index, tag)` pairs. -/
structure PState where
  tuples : List (Int × String × Finset Nat)
  posTags : Finset (Nat × String)
deriving DecidableEq

/-- The recursive scan of `export_process_sentence`: iterate over the
remaining enumerated records looking for children of `nodenum`; recurse into
non-terminal children, collect terminal children.  The fuel parameter, spent
one unit per step, bounds the total work; its exhaustion models Python\'s
`RecursionError` on cyclic parent references (any terminating run succeeds
for all sufficiently large fuel). -/
def processGo (sentence : List Fields) (labels : Int → Option String)
    (param : Param) (deletePos : String) :
    Nat → Int → List (Nat × Fields) → PState → Except Err PState
  | _, _, [], st => .ok st
  | 0, _, _ :: _, _ => .error .recursionError
  | fuel + 1, nodenum, (linenum, fields) :: rest, st =>
    match pyInt? (parentF fields) with
    | none => .error (.valueError "invalid literal for int")
    | some parent =>
      if parent = nodenum then
        if startsWithHash (nodeF fields) then
          match pyInt? (strTail (nodeF fields)) with
          | none => .error (.valueError "invalid literal for int")
          | some childnum =>
            match labels childnum with
            | none => .error .keyError
            | some childLabel =>
              match processGo sentence labels param deletePos fuel childnum
                  sentence.enum
                  ⟨updateAssoc st.tuples childnum (childLabel, ∅), st.posTags⟩ with
              | .error e => .error e
              | .ok st' =>
                match lookupA st'.tuples childnum, lookupA st'.tuples nodenum with
                | some cv, some nv =>
                  processGo sentence labels param deletePos fuel nodenum rest
                    ⟨updateAssoc st'.tuples nodenum (nv.1, nv.2 ∪ cv.2), st'.posTags⟩
                | _, _ => .error .keyError
        else
          let pt := if tagF fields ∉ paramGetLabels param deletePos then
              insert (linenum, tagF fields) st.posTags else st.posTags
          if tagF fields ∉ param.DELETE_LABEL then
            match lookupA st.tuples nodenum with
            | none => .error .keyError
            | some nv =>
              processGo sentence labels param deletePos fuel nodenum rest
                ⟨updateAssoc st.tuples nodenum (nv.1, insert (linenum + 1) nv.2), pt⟩
          else
            processGo sentence labels param deletePos fuel nodenum rest ⟨st.tuples, pt⟩
      else processGo sentence labels param deletePos fuel nodenum rest st

theorem processGo_nil (sentence : List Fields) (labels : Int → Option String)
    (param : Param) (deletePos : String) (fuel : Nat) (nodenum : Int) (st : PState) :
    processGo sentence labels param deletePos fuel nodenum [] st = .ok st := by
  cases fuel <;> rfl

theorem processGo_zero_cons (sentence : List Fields) (labels : Int → Option String)
    (param : Param) (deletePos : String) (nodenum : Int) (hd : Nat × Fields)
    (rest : List (Nat × Fields)) (st : PState) :
    processGo sentence labels param deletePos 0 nodenum (hd :: rest) st
      = .error .recursionError := rfl

/-- `export_process_sentence`: look up the label of `nodenum` (a missing
label is a `KeyError`), create its empty tuple entry, then scan all records
of the sentence for its children. -/
def export_process_sentence (sentence : List Fields) (labels : Int → Option String)
    (param : Param) (deletePos : String) (fuel : Nat) (nodenum : Int)
    (st : PState) : Except Err PState :=
  match fuel with
  | 0 => .error .recursionError
  | fuel' + 1 =>
    match labels nodenum with
    | none => .error .keyError
    | some label =>
      processGo sentence labels param deletePos fuel' nodenum sentence.enum
        ⟨updateAssoc st.tuples nodenum (label, ∅), st.posTags⟩

/-! ### `read_from_export`: reading signatures -/

/-- `labels_by_nodenum`: collect, in order, the labels of all declared
non-terminal node ids (`none` models the `ValueError` of `int` on a malformed
node id, which `export_split` in fact rules out). -/
def buildLabels : List Fields → List (Int × String) → Option (List (Int × String))
  | [], acc => some acc
  | f :: rest, acc =>
    if startsWithHash (nodeF f) then
      match pyInt? (strTail (nodeF f)) with
      | none => none
      | some k => buildLabels rest (updateAssoc acc k (tagF f))
    else buildLabels rest acc

/-- One step of signature building: add the node as a bracketing when its
label is not deleted and its terminal set is non-empty; in unlabeled mode
(`LABELED = 0`) the emitted label is the wildcard `X`. -/
def buildSigStep (param : Param) (s : Sig) (ent : Int × String × Finset Nat) : Sig :=
  if ent.2.1 ∉ param.DELETE_LABEL ∧ ent.2.2 ≠ ∅ then
    (Bracketing.mk (if param.LABELED ≠ 0 then ent.2.1 else "X") ent.2.2) ::ₘ s
  else s

/-- Build the signature of one sentence from the completed tuple store:
one bracketing per node with a non-deleted label and a non-empty terminal
set. -/
def buildSig (param : Param) (tuples : List (Int × String × Finset Nat)) : Sig :=
  tuples.foldl (buildSigStep param) 0

/-- The result of `read_from_export`: sentence number ↦ signature and
sentence number ↦ set of `(position, tag)` pairs. -/
structure ReadResult where
  sigs : List (Int × Sig)
  tags : List (Int × Finset (Nat × String))
deriving DecidableEq

/-- The per-sentence loop of `read_from_export` over the collected sentence
blocks. -/
def readGo (param : Param) (deletePos : String) (fuel : Nat) :
    List (Int × List String) → ReadResult → Except Err ReadResult
  | [], acc => .ok acc
  | (sentNum, lines) :: rest, acc =>
    match lines.mapM export_split with
    | .error e => .error e
    | .ok sentence =>
      match buildLabels sentence [] with
      | none => .error (.valueError "invalid literal for int")
      | some ls =>
        let labels := lookupA (updateAssoc ls 0 "VROOT")
        match export_process_sentence sentence labels param deletePos fuel 0 ⟨[], ∅⟩ with
        | .error e => .error e
        | .ok st =>
          readGo param deletePos fuel rest
            ⟨updateAssoc acc.sigs sentNum (buildSig param st.tuples),
             updateAssoc acc.tags sentNum st.posTags⟩

/-- `read_from_export`, with the `#BOS`/`#EOS` scan abstracted: the input is
the list of `(sentence number, record lines)` blocks of the file, in file
order. -/
def read_from_export (data : List (Int × List String)) (param : Param)
    (deletePos : String) (fuel : Nat) : Except Err ReadResult :=
  readGo param deletePos fuel data ⟨[], []⟩

/-! ### `evaluate`: the Scorer -/

/-- Python `/` on numbers (modelled on `ℚ`): raises `ZeroDivisionError` on a
zero denominator. -/
def pydiv (a b : ℚ) : Except Err ℚ :=
  if b = 0 then .error .zeroDivisionError else .ok (a / b)

/-- `sum((key_sent_sig & answer_sent_sig).values())`: the number of matched
bracketings of one sentence, the cardinality of the multiset intersection. -/
def matchCount (k a : Sig) : Nat := Multiset.card (k ∩ a)

/-- One line of the per-sentence score table (plus the per-sentence exact
match flag that feeds the `total_exact` counter). -/
structure Row where
  sentNum : Int
  sentPrec : ℚ
  sentRec : ℚ
  sentFb1 : ℚ
  sentMatched : Nat
  sentKey : Nat
  sentAnswer : Nat
  answerTagCount : Nat
  tagMatched : Nat
  exactMatch : Bool
deriving DecidableEq

/-- The aggregate counters threaded through the sentence loop of `evaluate`. -/
structure LoopState where
  missing : Nat := 0
  totalMatch : Nat := 0
  totalKey : Nat := 0
  totalAnswer : Nat := 0
  totalExact : Nat := 0
  totalWords : Nat := 0
  totalMatchedPos : Nat := 0
  totalSents : Nat := 0
  rows : List Row := []
deriving DecidableEq

/-- The body of the sentence loop of `evaluate` for one gold sentence number:
cutoff check, bracketing match count, guarded precision / recall / F1, POS
tag bookkeeping, counter updates.  A sentence number absent from the answer
contributes an empty signature and a `missing` increment; note that the
subsequent `answer_tags[sent_num]` lookup is a `KeyError` in that case. -/
def scoreSentence (param : Param) (keySigs : List (Int × Sig))
    (keyTags : List (Int × Finset (Nat × String)))
    (ansSigs : List (Int × Sig)) (ansTags : List (Int × Finset (Nat × String)))
    (n : Int) (st : LoopState) : Except Err LoopState :=
  match lookupA keyTags n with
  | none => .error .keyError
  | some ktags =>
    if (ktags.card : Int) > param.CUTOFF_LEN then .ok st
    else
      match lookupA keySigs n with
      | none => .error (.valueError "no data for sent. in key")
      | some kSig =>
        let pair : Sig × Nat := match lookupA ansSigs n with
          | some s => (s, 0)
          | none => (0, 1)
        let aSig := pair.1
        let m := matchCount kSig aSig
        let exactInc : Nat := if kSig = aSig then 1 else 0
        let sentAnswer := Multiset.card aSig
        match (if 0 < aSig.toFinset.card then
            pydiv (100 * (m : ℚ)) (sentAnswer : ℚ) else .ok 0) with
        | .error e => .error e
        | .ok sentPrec =>
          let sentKey := Multiset.card kSig
          match (if 0 < kSig.toFinset.card then
              pydiv (100 * (m : ℚ)) (sentKey : ℚ) else .ok 0) with
          | .error e => .error e
          | .ok sentRec =>
            match (if 0 < sentPrec + sentRec then
                pydiv (2 * sentPrec * sentRec) (sentPrec + sentRec) else .ok 0) with
            | .error e => .error e
            | .ok sentFb1 =>
              match lookupA ansTags n with
              | none => .error .keyError
              | some atags =>
                let tagMatched := (ktags ∩ atags).card
                let row : Row := ⟨n, sentPrec, sentRec, sentFb1, m, sentKey,
                  sentAnswer, atags.card, tagMatched, decide (kSig = aSig)⟩
                .ok { missing := st.missing + pair.2,
                      totalMatch := st.totalMatch + m,
                      totalKey := st.totalKey + sentKey,
                      totalAnswer := st.totalAnswer + sentAnswer,
                      totalExact := st.totalExact + exactInc,
                      totalWords := st.totalWords + ktags.card,
                      totalMatchedPos := st.totalMatchedPos + tagMatched,
                      totalSents := st.totalSents + 1,
                      rows := st.rows ++ [row] }

/-- The sentence loop of `evaluate` over the sorted gold sentence numbers. -/
def evalLoop (param : Param) (keySigs : List (Int × Sig))
    (keyTags : List (Int × Finset (Nat × String)))
    (ansSigs : List (Int × Sig)) (ansTags : List (Int × Finset (Nat × String))) :
    List Int → LoopState → Except Err LoopState
  | [], st => .ok st
  | n :: rest, st =>
    match scoreSentence param keySigs keyTags ansSigs ansTags n st with
    | .error e => .error e
    | .ok st' => evalLoop param keySigs keyTags ansSigs ansTags rest st'

/-- Insert into an ascending list (for `sorted(key_sig)`). -/
def insertSorted (x : Int) : List Int → List Int
  | [] => [x]
  | y :: ys => if x ≤ y then x :: y :: ys else y :: insertSorted x ys

/-- Ascending sort of the gold sentence numbers (`sorted(key_sig)`). -/
def sortInts (l : List Int) : List Int := l.foldr insertSorted []

/-- The full result of an `evaluate` run: the per-sentence table, the final
counters and the summary percentages. -/
structure Metrics where
  rows : List Row
  missing : Nat
  totalMatch : Nat
  totalKey : Nat
  totalAnswer : Nat
  totalExact : Nat
  totalWords : Nat
  totalMatchedPos : Nat
  totalSents : Nat
  precTotal : ℚ
  recTotal : ℚ
  fb1Total : ℚ
  posAcc : ℚ
  exPct : ℚ
deriving DecidableEq

/-- The summary block of `evaluate` (lines 290–318): guarded aggregate
precision, recall and F1, then the POS-accuracy and exact-match percentages,
whose divisions by `total_words` and `total_sents` are unguarded. -/
def summarize (st : LoopState) : Except Err Metrics :=
  match (if 0 < st.totalAnswer then
      pydiv (100 * (st.totalMatch : ℚ)) (st.totalAnswer : ℚ) else .ok 0) with
  | .error e => .error e
  | .ok precTotal =>
    match (if 0 < st.totalKey then
        pydiv (100 * (st.totalMatch : ℚ)) (st.totalKey : ℚ) else .ok 0) with
    | .error e => .error e
    | .ok recTotal =>
      match (if 0 < precTotal + recTotal then
          pydiv (2 * precTotal * recTotal) (precTotal + recTotal) else .ok 0) with
      | .error e => .error e
      | .ok fb1Total =>
        match pydiv (100 * (st.totalMatchedPos : ℚ)) (st.totalWords : ℚ) with
        | .error e => .error e
        | .ok posAcc =>
          match pydiv (100 * (st.totalExact : ℚ)) (st.totalSents : ℚ) with
          | .error e => .error e
          | .ok exPct =>
            .ok ⟨st.rows, st.missing, st.totalMatch, st.totalKey,
              st.totalAnswer, st.totalExact, st.totalWords,
              st.totalMatchedPos, st.totalSents,
              precTotal, recTotal, fb1Total, posAcc, exPct⟩

/-- `evaluate`: read the gold (key) file with the length-deletion tag set and
the answer file with the ordinary deletion tag set, abort on an empty gold
file or an answer with more sentences than gold, score every gold sentence
within the length cutoff, then form the summary percentages. -/
def evaluate (keyData answerData : List (Int × List String)) (param : Param)
    (fuel : Nat) : Except Err Metrics :=
  match read_from_export keyData param "DELETE_LABEL_FOR_LENGTH" fuel with
  | .error e => .error e
  | .ok kr =>
    match read_from_export answerData param "DELETE_LABEL" fuel with
    | .error e => .error e
    | .ok ar =>
      if kr.sigs.isEmpty then .error (.valueError "no sentences in key")
      else if ar.sigs.length > kr.sigs.length then
        .error (.valueError "more sentences in answer than key")
      else
        let nums := sortInts (kr.sigs.map Prod.fst)
        match evalLoop param kr.sigs kr.tags ar.sigs ar.tags nums {} with
        | .error e => .error e
        | .ok st => summarize st

/-! ### Basic facts about the match count -/

/-- `s ∩ s = s` for signatures. -/
theorem sig_inter_self (s : Sig) : s ∩ s = s :=
  Multiset.ext.2 fun b => by rw [Multiset.count_inter, min_self]

/-- The match count of equal signatures is their total size. -/
theorem matchCount_self (s : Sig) : matchCount s s = Multiset.card s := by
  rw [matchCount, sig_inter_self]

/-- A signature has a distinct bracketing iff it has a bracketing. -/
theorem sig_toFinset_card_pos_iff (s : Sig) :
    0 < s.toFinset.card ↔ 0 < Multiset.card s := by
  rw [Finset.card_pos, Multiset.card_pos_iff_exists_mem]
  constructor
  · rintro ⟨b, hb⟩; exact ⟨b, Multiset.mem_toFinset.mp hb⟩
  · rintro ⟨b, hb⟩; exact ⟨b, Multiset.mem_toFinset.mpr hb⟩

/-! ### C1: matched bracketings are the multiset intersection cardinality -/

/-- **C1.** For any gold and test signature, the per-sentence matched
bracketing count (`sum((key_sent_sig & answer_sent_sig).values())`,
lines 264–265) is the multiset intersection cardinality: the sum, over every
distinct bracketing occurring on either side, of the minimum of its two
multiplicities; and the count is symmetric in its two arguments. -/
theorem matchCount_eq_sum_min_counts (g t : Sig) :
    matchCount g t
      = ∑ b ∈ g.toFinset ∪ t.toFinset, min (g.count b) (t.count b)
    ∧ matchCount g t = matchCount t g := by
  constructor
  · have hsub : (g ∩ t).toFinset ⊆ g.toFinset ∪ t.toFinset := by
      intro b hb
      exact Finset.mem_union_left _
        (Multiset.mem_toFinset.mpr
          (Multiset.mem_inter.mp (Multiset.mem_toFinset.mp hb)).1)
    have hvan : ∀ b ∈ g.toFinset ∪ t.toFinset,
        b ∉ (g ∩ t).toFinset → (g ∩ t).count b = 0 := by
      intro b _ hb
      exact Multiset.count_eq_zero.mpr fun hmem => hb (Multiset.mem_toFinset.mpr hmem)
    calc matchCount g t = ∑ b ∈ (g ∩ t).toFinset, (g ∩ t).count b :=
          (Multiset.toFinset_sum_count_eq _).symm
      _ = ∑ b ∈ g.toFinset ∪ t.toFinset, (g ∩ t).count b :=
          Finset.sum_subset hsub hvan
      _ = ∑ b ∈ g.toFinset ∪ t.toFinset, min (g.count b) (t.count b) :=
          Finset.sum_congr rfl fun b _ => Multiset.count_inter b g t
  · rw [matchCount, matchCount, Multiset.inter_comm]

/-! ### Association list lemmas -/

theorem lookupA_updateAssoc_self {β : Type _} (l : List (Int × β)) (k : Int) (v : β) :
    lookupA (updateAssoc l k v) k = some v := by
  induction l with
  | nil => simp [updateAssoc, lookupA]
  | cons e rest ih =>
    obtain ⟨k', v'⟩ := e
    by_cases h : k' = k
    · subst h; simp [updateAssoc, lookupA]
    · simp [updateAssoc, lookupA, h, ih]

theorem lookupA_updateAssoc_ne {β : Type _} (l : List (Int × β)) (k n : Int) (v : β)
    (h : n ≠ k) : lookupA (updateAssoc l k v) n = lookupA l n := by
  induction l with
  | nil => simp [updateAssoc, lookupA, Ne.symm h]
  | cons e rest ih =>
    obtain ⟨k', v'⟩ := e
    by_cases hk : k' = k
    · subst hk
      simp [updateAssoc, lookupA, Ne.symm h]
    · simp [updateAssoc, lookupA, hk, ih]

theorem lookupA_isSome_updateAssoc {β : Type _} (l : List (Int × β)) (k n : Int) (v : β)
    (h : (lookupA l n).isSome) : (lookupA (updateAssoc l k v) n).isSome := by
  by_cases hk : n = k
  · subst hk; rw [lookupA_updateAssoc_self]; rfl
  · rwa [lookupA_updateAssoc_ne _ _ _ _ hk]

theorem mem_updateAssoc {β : Type _} {l : List (Int × β)} {k : Int} {v : β} :
    ∀ ent ∈ updateAssoc l k v, ent = (k, v) ∨ ent ∈ l := by
  induction l with
  | nil =>
    intro ent hent
    rw [updateAssoc] at hent
    exact Or.inl (List.mem_singleton.mp hent)
  | cons e rest ih =>
    obtain ⟨k', v'⟩ := e
    intro ent hent
    rw [updateAssoc] at hent
    by_cases hk : k' = k
    · rw [if_pos hk] at hent
      rcases List.mem_cons.mp hent with h | h
      · exact Or.inl h
      · exact Or.inr (List.mem_cons_of_mem _ h)
    · rw [if_neg hk] at hent
      rcases List.mem_cons.mp hent with h | h
      · exact Or.inr (List.mem_cons.mpr (Or.inl h))
      · rcases ih ent h with h' | h'
        · exact Or.inl h'
        · exact Or.inr (List.mem_cons_of_mem _ h')

theorem lookupA_mem {β : Type _} {l : List (Int × β)} {k : Int} {v : β}
    (h : lookupA l k = some v) : (k, v) ∈ l := by
  induction l with
  | nil => rw [lookupA] at h; exact Option.noConfusion h
  | cons e rest ih =>
    obtain ⟨k', v'⟩ := e
    rw [lookupA] at h
    by_cases hk : k' = k
    · rw [if_pos hk] at h
      obtain rfl : v' = v := Option.some.inj h
      rw [← hk]
      exact List.mem_cons_self _ _
    · rw [if_neg hk] at h
      exact List.mem_cons_of_mem _ (ih h)

/-! ### Monotonicity of the yield extractor state -/

set_option maxHeartbeats 2000000 in
/-- Along any successful `processGo` run, tuple entries are never removed and
the `pos_tags` set only grows. -/
theorem processGo_mono (sentence : List Fields) (labels : Int → Option String)
    (param : Param) (deletePos : String) :
    ∀ fuel records nodenum st st',
      processGo sentence labels param deletePos fuel nodenum records st = .ok st' →
      (∀ n, (lookupA st.tuples n).isSome → (lookupA st'.tuples n).isSome) ∧
        st.posTags ⊆ st'.posTags := by
  intro fuel
  induction fuel using Nat.strong_induction_on with
  | _ fuel IH =>
  intro records nodenum st st' h
  cases records with
  | nil =>
    rw [processGo_nil] at h
    cases h
    exact ⟨fun n hn => hn, Finset.Subset.refl _⟩
  | cons hd rest =>
    obtain ⟨linenum, fields⟩ := hd
    cases fuel with
    | zero =>
      rw [processGo_zero_cons] at h
      exact Except.noConfusion h
    | succ fuel' =>
      rw [processGo.eq_def] at h
      dsimp only at h
      split at h
      · exact Except.noConfusion h
      · split at h
        · split at h
          · -- non-terminal child
            split at h
            · exact Except.noConfusion h
            · split at h
              · exact Except.noConfusion h
              · split at h
                · exact Except.noConfusion h
                · split at h
                  · rename_i stc heqrec xa xb cv nv heqc heqn
                    have m1 := IH fuel' (Nat.lt_succ_self fuel') sentence.enum _ _ _ heqrec
                    have m2 := IH fuel' (Nat.lt_succ_self fuel') rest _ _ _ h
                    refine ⟨fun n hn => ?_, fun x hx => m2.2 (m1.2 hx)⟩
                    exact m2.1 n (lookupA_isSome_updateAssoc _ _ _ _
                      (m1.1 n (lookupA_isSome_updateAssoc _ _ _ _ hn)))
                  · exact Except.noConfusion h
          · -- terminal
            split at h
            · split at h
              · exact Except.noConfusion h
              · have m2 := IH fuel' (Nat.lt_succ_self fuel') rest _ _ _ h
                refine ⟨fun n hn => m2.1 n (lookupA_isSome_updateAssoc _ _ _ _ hn),
                  fun x hx => m2.2 ?_⟩
                by_cases hp : tagF fields ∉ paramGetLabels param deletePos
                · simp only [if_pos hp]
                  exact Finset.mem_insert_of_mem hx
                · simp only [if_neg hp]
                  exact hx
            · have m2 := IH fuel' (Nat.lt_succ_self fuel') rest _ _ _ h
              refine ⟨fun n hn => m2.1 n hn, fun x hx => m2.2 ?_⟩
              by_cases hp : tagF fields ∉ paramGetLabels param deletePos
              · simp only [if_pos hp]
                exact Finset.mem_insert_of_mem hx
              · simp only [if_neg hp]
                exact hx
        · exact IH fuel' (Nat.lt_succ_self fuel') rest nodenum st st' h

/-! ### The main invariant of the yield extractor -/

/-- A well-formed `pos_tags` entry: it is the `(line index, tag)` pair of a
terminal record whose tag survives the `delete_pos` filter and whose parent
id parses and is a labelled node. -/
def PosGood (sentence : List Fields) (labels : Int → Option String)
    (param : Param) (deletePos : String) (e : Nat × String) : Prop :=
  ∃ f, sentence[e.1]? = some f ∧ startsWithHash (nodeF f) = false ∧
    tagF f = e.2 ∧ e.2 ∉ paramGetLabels param deletePos ∧
    ∃ p, pyInt? (parentF f) = some p ∧ (labels p).isSome

/-- A well-formed terminal position in a yield: `q = i + 1` for the line
index `i` of a terminal record whose tag survives the `DELETE_LABEL` filter
and whose parent id parses and is a labelled node. -/
def TermGood (sentence : List Fields) (labels : Int → Option String)
    (param : Param) (q : Nat) : Prop :=
  ∃ i f, q = i + 1 ∧ sentence[i]? = some f ∧ startsWithHash (nodeF f) = false ∧
    tagF f ∉ param.DELETE_LABEL ∧
    ∃ p, pyInt? (parentF f) = some p ∧ (labels p).isSome

/-- The extractor state invariant: all `pos_tags` entries are well formed,
every tuple entry carries the label of its node id, and all collected
terminal positions are well formed. -/
def StGood (sentence : List Fields) (labels : Int → Option String)
    (param : Param) (deletePos : String) (st : PState) : Prop :=
  (∀ e ∈ st.posTags, PosGood sentence labels param deletePos e) ∧
  ∀ ent ∈ st.tuples, labels ent.1 = some ent.2.1 ∧
    ∀ q ∈ ent.2.2, TermGood sentence labels param q

set_option maxHeartbeats 2000000 in
/-- `processGo` preserves the extractor state invariant, provided the records
scanned are (index, record) pairs of the sentence and the current node is
labelled. -/
theorem processGo_good (sentence : List Fields) (labels : Int → Option String)
    (param : Param) (deletePos : String) :
    ∀ fuel records nodenum st st',
      processGo sentence labels param deletePos fuel nodenum records st = .ok st' →
      (∀ i f, (i, f) ∈ records → sentence[i]? = some f) →
      (labels nodenum).isSome →
      StGood sentence labels param deletePos st →
      StGood sentence labels param deletePos st' := by
  intro fuel
  induction fuel using Nat.strong_induction_on with
  | _ fuel IH =>
  intro records nodenum st st' h hrecs hn hgood
  cases records with
  | nil =>
    rw [processGo_nil] at h
    cases h
    exact hgood
  | cons hd rest =>
    obtain ⟨linenum, fields⟩ := hd
    have hrest : ∀ i f, (i, f) ∈ rest → sentence[i]? = some f :=
      fun i f hif => hrecs i f (List.mem_cons_of_mem _ hif)
    cases fuel with
    | zero =>
      rw [processGo_zero_cons] at h
      exact Except.noConfusion h
    | succ fuel' =>
      rw [processGo.eq_def] at h
      dsimp only at h
      split at h
      · exact Except.noConfusion h
      · split at h
        · split at h
          · -- non-terminal child
            split at h
            · exact Except.noConfusion h
            · split at h
              · exact Except.noConfusion h
              · split at h
                · exact Except.noConfusion h
                · split at h
                  · rename_i x5 parentv heqp hpn hsw x4 childnum heq4
                      x3 f0 heq3 x2 stc heqrec xa xb cv nv heqc heqn
                    have hchild : StGood sentence labels param deletePos
                        ⟨updateAssoc st.tuples childnum (f0, ∅), st.posTags⟩ := by
                      refine ⟨hgood.1, ?_⟩
                      intro ent hent
                      rcases mem_updateAssoc ent hent with hen | hen
                      · subst hen
                        exact ⟨heq3, fun q hq => absurd hq (Finset.not_mem_empty q)⟩
                      · exact hgood.2 ent hen
                    have hstc := IH fuel' (Nat.lt_succ_self fuel') sentence.enum childnum
                      _ stc heqrec
                      (fun i f hif => List.mk_mem_enum_iff_getElem?.mp hif)
                      (by rw [heq3]; rfl) hchild
                    have hnv := hstc.2 (nodenum, nv) (lookupA_mem heqn)
                    have hcv := hstc.2 (childnum, cv) (lookupA_mem heqc)
                    have hcont : StGood sentence labels param deletePos
                        ⟨updateAssoc stc.tuples nodenum (nv.1, nv.2 ∪ cv.2), stc.posTags⟩ := by
                      refine ⟨hstc.1, ?_⟩
                      intro ent hent
                      rcases mem_updateAssoc ent hent with hen | hen
                      · subst hen
                        refine ⟨hnv.1, ?_⟩
                        intro q hq
                        rcases Finset.mem_union.mp hq with hq | hq
                        · exact hnv.2 q hq
                        · exact hcv.2 q hq
                      · exact hstc.2 ent hen
                    exact IH fuel' (Nat.lt_succ_self fuel') rest nodenum _ st' h hrest hn hcont
                  · exact Except.noConfusion h
          · -- terminal
            split at h
            · split at h
              · exact Except.noConfusion h
              · rename_i x1 parentv heqp hpn hnsw hdel x0 nv heqn
                have hline : sentence[linenum]? = some fields :=
                  hrecs linenum fields (List.mem_cons_self _ _)
                have hsw : startsWithHash (nodeF fields) = false := by
                  rwa [Bool.not_eq_true] at hnsw
                have hnv := hgood.2 (nodenum, nv) (lookupA_mem heqn)
                have hT : TermGood sentence labels param (linenum + 1) :=
                  ⟨linenum, fields, rfl, hline, hsw, hdel,
                    parentv, heqp, by rw [hpn]; exact hn⟩
                have hnew : StGood sentence labels param deletePos
                    ⟨updateAssoc st.tuples nodenum (nv.1, insert (linenum + 1) nv.2),
                      if tagF fields ∉ paramGetLabels param deletePos then
                        insert (linenum, tagF fields) st.posTags else st.posTags⟩ := by
                  constructor
                  · intro e he
                    by_cases hp : tagF fields ∉ paramGetLabels param deletePos
                    · rw [if_pos hp] at he
                      rcases Finset.mem_insert.mp he with he | he
                      · subst he
                        exact ⟨fields, hline, hsw, rfl, hp, parentv, heqp,
                          by rw [hpn]; exact hn⟩
                      · exact hgood.1 e he
                    · rw [if_neg hp] at he
                      exact hgood.1 e he
                  · intro ent hent
                    rcases mem_updateAssoc ent hent with hen | hen
                    · subst hen
                      refine ⟨hnv.1, ?_⟩
                      intro q hq
                      rcases Finset.mem_insert.mp hq with hq | hq
                      · subst hq; exact hT
                      · exact hnv.2 q hq
                    · exact hgood.2 ent hen
                exact IH fuel' (Nat.lt_succ_self fuel') rest nodenum _ st' h hrest hn hnew
            · rename_i x1 parentv heqp hpn hnsw hdel
              have hline : sentence[linenum]? = some fields :=
                hrecs linenum fields (List.mem_cons_self _ _)
              have hsw : startsWithHash (nodeF fields) = false := by
                rwa [Bool.not_eq_true] at hnsw
              have hnew : StGood sentence labels param deletePos
                  ⟨st.tuples,
                    if tagF fields ∉ paramGetLabels param deletePos then
                      insert (linenum, tagF fields) st.posTags else st.posTags⟩ := by
                constructor
                · intro e he
                  by_cases hp : tagF fields ∉ paramGetLabels param deletePos
                  · rw [if_pos hp] at he
                    rcases Finset.mem_insert.mp he with he | he
                    · subst he
                      exact ⟨fields, hline, hsw, rfl, hp, parentv, heqp,
                        by rw [hpn]; exact hn⟩
                    · exact hgood.1 e he
                  · rw [if_neg hp] at he
                    exact hgood.1 e he
                · exact hgood.2
              exact IH fuel' (Nat.lt_succ_self fuel') rest nodenum _ st' h hrest hn hnew
        · exact IH fuel' (Nat.lt_succ_self fuel') rest nodenum st st' h hrest hn hgood

/-! ### Completeness of the POS tag bookkeeping -/

/-- `Covers st' m` says: every terminal record of the sentence whose parent
id parses to `m` and whose tag is not in the `delete_pos` set has its
`(line index, tag)` pair in the final `pos_tags` set. -/
def Covers (sentence : List Fields) (param : Param) (deletePos : String)
    (st' : PState) (m : Int) : Prop :=
  ∀ i f, (i, f) ∈ sentence.enum → pyInt? (parentF f) = some m →
    startsWithHash (nodeF f) = false → tagF f ∉ paramGetLabels param deletePos →
    (i, tagF f) ∈ st'.posTags

set_option maxHeartbeats 2000000 in
/-- `processGo` records the `(position, tag)` pair of every non-deleted
terminal child of the current node among the scanned records, and every node
id that appears in the final tuple store was either there at the start or is
fully covered. -/
theorem processGo_covers (sentence : List Fields) (labels : Int → Option String)
    (param : Param) (deletePos : String) :
    ∀ fuel records nodenum st st',
      processGo sentence labels param deletePos fuel nodenum records st = .ok st' →
      (lookupA st.tuples nodenum).isSome →
      ((∀ i f, (i, f) ∈ records → pyInt? (parentF f) = some nodenum →
          startsWithHash (nodeF f) = false →
          tagF f ∉ paramGetLabels param deletePos → (i, tagF f) ∈ st'.posTags) ∧
        (∀ m, (lookupA st'.tuples m).isSome →
          (lookupA st.tuples m).isSome ∨ Covers sentence param deletePos st' m)) := by
  intro fuel
  induction fuel using Nat.strong_induction_on with
  | _ fuel IH =>
  intro records nodenum st st' h hin
  cases records with
  | nil =>
    rw [processGo_nil] at h
    cases h
    exact ⟨fun i f hif => absurd hif (List.not_mem_nil _), fun m hm => Or.inl hm⟩
  | cons hd rest =>
    obtain ⟨linenum, fields⟩ := hd
    cases fuel with
    | zero =>
      rw [processGo_zero_cons] at h
      exact Except.noConfusion h
    | succ fuel' =>
      rw [processGo.eq_def] at h
      dsimp only at h
      split at h
      · exact Except.noConfusion h
      · split at h
        · split at h
          · -- non-terminal child
            split at h
            · exact Except.noConfusion h
            · split at h
              · exact Except.noConfusion h
              · split at h
                · exact Except.noConfusion h
                · split at h
                  · rename_i x5 parentv heqp hpn hsw x4 childnum heq4
                      x3 f0 heq3 x2 stc heqrec xa xb cv nv heqc heqn
                    have hchin : (lookupA
                        (updateAssoc st.tuples childnum (f0, ∅)) childnum).isSome := by
                      rw [lookupA_updateAssoc_self]; rfl
                    have cIH := IH fuel' (Nat.lt_succ_self fuel') sentence.enum childnum
                      _ stc heqrec hchin
                    have hinNext : (lookupA
                        (updateAssoc stc.tuples nodenum (nv.1, nv.2 ∪ cv.2)) nodenum).isSome := by
                      rw [lookupA_updateAssoc_self]; rfl
                    have m2 := IH fuel' (Nat.lt_succ_self fuel') rest nodenum _ st' h hinNext
                    have mono2 := processGo_mono sentence labels param deletePos fuel' rest
                      nodenum _ st' h
                    refine ⟨?_, ?_⟩
                    · intro i f hif hp hswf hdp
                      rcases List.mem_cons.mp hif with heq | hmem
                      · injection heq with h1 h2
                        subst h1; subst h2
                        rw [hswf] at hsw
                        exact Bool.noConfusion hsw
                      · exact m2.1 i f hmem hp hswf hdp
                    · intro m hm
                      rcases m2.2 m hm with hin2 | hcov
                      · by_cases hmn : m = nodenum
                        · subst hmn; exact Or.inl hin
                        · rw [lookupA_updateAssoc_ne _ _ _ _ hmn] at hin2
                          rcases cIH.2 m hin2 with hin3 | hcov2
                          · by_cases hmc : m = childnum
                            · subst hmc
                              refine Or.inr ?_
                              intro i f hif hp hswf hdp
                              exact mono2.2 (cIH.1 i f hif hp hswf hdp)
                            · rw [lookupA_updateAssoc_ne _ _ _ _ hmc] at hin3
                              exact Or.inl hin3
                          · refine Or.inr ?_
                            intro i f hif hp hswf hdp
                            exact mono2.2 (hcov2 i f hif hp hswf hdp)
                      · exact Or.inr hcov
                  · exact Except.noConfusion h
          · -- terminal
            split at h
            · split at h
              · exact Except.noConfusion h
              · rename_i x1 parentv heqp hpn hnsw hdel x0 nv heqn
                have hinNext : (lookupA (updateAssoc st.tuples nodenum
                    (nv.1, insert (linenum + 1) nv.2)) nodenum).isSome := by
                  rw [lookupA_updateAssoc_self]; rfl
                have m2 := IH fuel' (Nat.lt_succ_self fuel') rest nodenum _ st' h hinNext
                have mono2 := processGo_mono sentence labels param deletePos fuel' rest
                  nodenum _ st' h
                refine ⟨?_, ?_⟩
                · intro i f hif hp hswf hdp
                  rcases List.mem_cons.mp hif with heq | hmem
                  · injection heq with h1 h2
                    subst h1; subst h2
                    refine mono2.2 ?_
                    show (i, tagF f) ∈
                      (if tagF f ∉ paramGetLabels param deletePos then
                        insert (i, tagF f) st.posTags else st.posTags)
                    rw [if_pos hdp]
                    exact Finset.mem_insert_self _ _
                  · exact m2.1 i f hmem hp hswf hdp
                · intro m hm
                  rcases m2.2 m hm with hin2 | hcov
                  · by_cases hmn : m = nodenum
                    · subst hmn; exact Or.inl hin
                    · rw [lookupA_updateAssoc_ne _ _ _ _ hmn] at hin2
                      exact Or.inl hin2
                  · exact Or.inr hcov
            · rename_i x1 parentv heqp hpn hnsw hdel
              have m2 := IH fuel' (Nat.lt_succ_self fuel') rest nodenum _ st' h hin
              have mono2 := processGo_mono sentence labels param deletePos fuel' rest
                nodenum _ st' h
              refine ⟨?_, ?_⟩
              · intro i f hif hp hswf hdp
                rcases List.mem_cons.mp hif with heq | hmem
                · injection heq with h1 h2
                  subst h1; subst h2
                  refine mono2.2 ?_
                  show (i, tagF f) ∈
                    (if tagF f ∉ paramGetLabels param deletePos then
                      insert (i, tagF f) st.posTags else st.posTags)
                  rw [if_pos hdp]
                  exact Finset.mem_insert_self _ _
                · exact m2.1 i f hmem hp hswf hdp
              · exact m2.2
        · rename_i parentv heqp hpn
          have m2 := IH fuel' (Nat.lt_succ_self fuel') rest nodenum st st' h hin
          refine ⟨?_, m2.2⟩
          intro i f hif hp hswf hdp
          rcases List.mem_cons.mp hif with heq | hmem
          · injection heq with h1 h2
            subst h1; subst h2
            rw [hp] at heqp
            injection heqp with h3
            exact absurd h3.symm hpn
          · exact m2.1 i f hmem hp hswf hdp

/-! ### The tuple store does not depend on `LABELED` or on `delete_pos` -/

theorem map_tuples_ok {a b : Except Err PState}
    (h : Except.map PState.tuples a = Except.map PState.tuples b)
    {x : PState} (ha : a = .ok x) : ∃ y, b = .ok y ∧ x.tuples = y.tuples := by
  subst ha
  cases b with
  | error e => simp [Except.map] at h
  | ok y =>
    refine ⟨y, rfl, ?_⟩
    simpa [Except.map] using h

theorem map_tuples_error {a b : Except Err PState}
    (h : Except.map PState.tuples a = Except.map PState.tuples b)
    {e : Err} (ha : a = .error e) : b = .error e := by
  subst ha
  cases b with
  | error e2 =>
    simp only [Except.map] at h
    cases h
    rfl
  | ok y => simp [Except.map] at h

set_option maxHeartbeats 4000000 in
/-- Two `processGo` runs over the same sentence and the same tuple store,
under two parameter sets that agree on `DELETE_LABEL` (the `delete_pos` key
and the initial `pos_tags` sets may differ arbitrarily), fail identically or
succeed with identical tuple stores. -/
theorem processGo_split (sentence : List Fields) (labels : Int → Option String)
    (p1 p2 : Param) (dp1 dp2 : String) (hDL : p1.DELETE_LABEL = p2.DELETE_LABEL) :
    ∀ fuel records nodenum T P1 P2,
      Except.map PState.tuples
          (processGo sentence labels p1 dp1 fuel nodenum records ⟨T, P1⟩) =
        Except.map PState.tuples
          (processGo sentence labels p2 dp2 fuel nodenum records ⟨T, P2⟩) := by
  intro fuel
  induction fuel using Nat.strong_induction_on with
  | _ fuel IH =>
  intro records nodenum T P1 P2
  cases records with
  | nil =>
    rw [processGo_nil, processGo_nil]
    rfl
  | cons hd rest =>
    obtain ⟨linenum, fields⟩ := hd
    cases fuel with
    | zero =>
      rw [processGo_zero_cons, processGo_zero_cons]
    | succ fuel' =>
      conv_lhs => rw [processGo.eq_def]
      conv_rhs => rw [processGo.eq_def]
      dsimp only
      cases heqp : pyInt? (parentF fields) with
      | none => rfl
      | some parentv =>
        dsimp only
        by_cases hparent : parentv = nodenum
        · rw [if_pos hparent, if_pos hparent]
          by_cases hsw : startsWithHash (nodeF fields) = true
          · rw [if_pos hsw, if_pos hsw]
            cases heqc : pyInt? (strTail (nodeF fields)) with
            | none => rfl
            | some childnum =>
              dsimp only
              cases heql : labels childnum with
              | none => rfl
              | some f0 =>
                dsimp only
                have hrec := IH fuel' (Nat.lt_succ_self _) sentence.enum childnum
                  (updateAssoc T childnum (f0, ∅)) P1 P2
                cases hc1 : processGo sentence labels p1 dp1 fuel' childnum sentence.enum
                    ⟨updateAssoc T childnum (f0, ∅), P1⟩ with
                | error e =>
                  have hc2 := map_tuples_error hrec hc1
                  rw [hc2]
                | ok st1 =>
                  obtain ⟨st2, hc2, htup⟩ := map_tuples_ok hrec hc1
                  rw [hc2]
                  dsimp only
                  rw [← htup]
                  cases hl1 : lookupA st1.tuples childnum with
                  | none => rfl
                  | some cv =>
                    cases hl2 : lookupA st1.tuples nodenum with
                    | none => rfl
                    | some nv =>
                      exact IH fuel' (Nat.lt_succ_self _) rest nodenum
                        (updateAssoc st1.tuples nodenum (nv.1, nv.2 ∪ cv.2))
                        st1.posTags st2.posTags
          · rw [if_neg hsw, if_neg hsw]
            rw [hDL]
            by_cases hdel : tagF fields ∉ p2.DELETE_LABEL
            · rw [if_pos hdel, if_pos hdel]
              cases hl : lookupA T nodenum with
              | none => rfl
              | some nv =>
                dsimp only
                exact IH fuel' (Nat.lt_succ_self _) rest nodenum
                  (updateAssoc T nodenum (nv.1, insert (linenum + 1) nv.2)) _ _
            · rw [if_neg hdel, if_neg hdel]
              exact IH fuel' (Nat.lt_succ_self _) rest nodenum T _ _
        · rw [if_neg hparent, if_neg hparent]
          exact IH fuel' (Nat.lt_succ_self _) rest nodenum T P1 P2

/-! ### Wrapper lemmas for `export_process_sentence` -/

theorem export_process_sentence_good (sentence : List Fields)
    (labels : Int → Option String) (param : Param) (deletePos : String)
    (fuel : Nat) (nodenum : Int) (st st' : PState)
    (h : export_process_sentence sentence labels param deletePos fuel nodenum st = .ok st')
    (hgood : StGood sentence labels param deletePos st) :
    StGood sentence labels param deletePos st' := by
  rw [export_process_sentence.eq_def] at h
  cases fuel with
  | zero => exact Except.noConfusion h
  | succ fuel' =>
    cases heql : labels nodenum with
    | none => rw [heql] at h; exact Except.noConfusion h
    | some label =>
      rw [heql] at h
      dsimp only at h
      refine processGo_good sentence labels param deletePos fuel' sentence.enum nodenum
        _ st' h (fun i f hif => List.mk_mem_enum_iff_getElem?.mp hif)
        (by rw [heql]; rfl) ?_
      refine ⟨hgood.1, ?_⟩
      intro ent hent
      rcases mem_updateAssoc ent hent with hen | hen
      · subst hen
        exact ⟨heql, fun q hq => absurd hq (Finset.not_mem_empty q)⟩
      · exact hgood.2 ent hen

theorem export_process_sentence_mono (sentence : List Fields)
    (labels : Int → Option String) (param : Param) (deletePos : String)
    (fuel : Nat) (nodenum : Int) (st st' : PState)
    (h : export_process_sentence sentence labels param deletePos fuel nodenum st = .ok st') :
    (∀ n, (lookupA st.tuples n).isSome → (lookupA st'.tuples n).isSome) ∧
      st.posTags ⊆ st'.posTags ∧ (lookupA st'.tuples nodenum).isSome := by
  rw [export_process_sentence.eq_def] at h
  cases fuel with
  | zero => exact Except.noConfusion h
  | succ fuel' =>
    cases heql : labels nodenum with
    | none => rw [heql] at h; exact Except.noConfusion h
    | some label =>
      rw [heql] at h
      dsimp only at h
      have m := processGo_mono sentence labels param deletePos fuel' sentence.enum
        nodenum _ st' h
      refine ⟨fun n hn => m.1 n (lookupA_isSome_updateAssoc _ _ _ _ hn), m.2, ?_⟩
      exact m.1 nodenum (by rw [lookupA_updateAssoc_self]; rfl)

theorem export_process_sentence_covers (sentence : List Fields)
    (labels : Int → Option String) (param : Param) (deletePos : String)
    (fuel : Nat) (nodenum : Int) (st st' : PState)
    (h : export_process_sentence sentence labels param deletePos fuel nodenum st = .ok st') :
    ∀ m, (lookupA st'.tuples m).isSome →
      (lookupA st.tuples m).isSome ∨ Covers sentence param deletePos st' m := by
  rw [export_process_sentence.eq_def] at h
  cases fuel with
  | zero => exact Except.noConfusion h
  | succ fuel' =>
    cases heql : labels nodenum with
    | none => rw [heql] at h; exact Except.noConfusion h
    | some label =>
      rw [heql] at h
      dsimp only at h
      have hc := processGo_covers sentence labels param deletePos fuel' sentence.enum
        nodenum _ st' h (by rw [lookupA_updateAssoc_self]; rfl)
      intro m hm
      rcases hc.2 m hm with hin | hcov
      · by_cases hmn : m = nodenum
        · subst hmn
          exact Or.inr (fun i f hif hp hswf hdp => hc.1 i f hif hp hswf hdp)
        · rw [lookupA_updateAssoc_ne _ _ _ _ hmn] at hin
          exact Or.inl hin
      · exact Or.inr hcov

theorem export_process_sentence_split (sentence : List Fields)
    (labels : Int → Option String) (p1 p2 : Param) (dp1 dp2 : String)
    (hDL : p1.DELETE_LABEL = p2.DELETE_LABEL) (fuel : Nat) (nodenum : Int)
    (T : List (Int × String × Finset Nat)) (P1 P2 : Finset (Nat × String)) :
    Except.map PState.tuples
        (export_process_sentence sentence labels p1 dp1 fuel nodenum ⟨T, P1⟩) =
      Except.map PState.tuples
        (export_process_sentence sentence labels p2 dp2 fuel nodenum ⟨T, P2⟩) := by
  conv_lhs => rw [export_process_sentence.eq_def]
  conv_rhs => rw [export_process_sentence.eq_def]
  cases fuel with
  | zero => rfl
  | succ fuel' =>
    cases heql : labels nodenum with
    | none => rfl
    | some label =>
      dsimp only
      exact processGo_split sentence labels p1 p2 dp1 dp2 hDL fuel' sentence.enum
        nodenum (updateAssoc T nodenum (label, ∅)) P1 P2

/-! ### Signature building lemmas -/

theorem mem_foldl_buildSigStep (param : Param) :
    ∀ (tuples : List (Int × String × Finset Nat)) (s : Sig) (b : Bracketing),
      b ∈ List.foldl (buildSigStep param) s tuples ↔
        b ∈ s ∨ ∃ ent, ent ∈ tuples ∧ ent.2.1 ∉ param.DELETE_LABEL ∧ ent.2.2 ≠ ∅ ∧
          b = Bracketing.mk (if param.LABELED ≠ 0 then ent.2.1 else "X") ent.2.2 := by
  intro tuples
  induction tuples with
  | nil => intro s b; simp
  | cons e t ih =>
    intro s b
    rw [List.foldl_cons, ih]
    constructor
    · rintro (hb | ⟨ent, hent, h1, h2, h3⟩)
      · rw [buildSigStep] at hb
        split at hb
        · rename_i hc
          rcases Multiset.mem_cons.mp hb with hb2 | hb2
          · exact Or.inr ⟨e, List.mem_cons_self _ _, hc.1, hc.2, hb2⟩
          · exact Or.inl hb2
        · exact Or.inl hb
      · exact Or.inr ⟨ent, List.mem_cons_of_mem _ hent, h1, h2, h3⟩
    · rintro (hb | ⟨ent, hent, h1, h2, h3⟩)
      · refine Or.inl ?_
        rw [buildSigStep]
        split
        · exact Multiset.mem_cons_of_mem hb
        · exact hb
      · rcases List.mem_cons.mp hent with he | ht
        · subst he
          refine Or.inl ?_
          rw [buildSigStep, if_pos ⟨h1, h2⟩]
          exact h3 ▸ Multiset.mem_cons_self _ _
        · exact Or.inr ⟨ent, ht, h1, h2, h3⟩

/-- Membership in a built signature. -/
theorem mem_buildSig (param : Param) (tuples : List (Int × String × Finset Nat))
    (b : Bracketing) :
    b ∈ buildSig param tuples ↔
      ∃ ent, ent ∈ tuples ∧ ent.2.1 ∉ param.DELETE_LABEL ∧ ent.2.2 ≠ ∅ ∧
        b = Bracketing.mk (if param.LABELED ≠ 0 then ent.2.1 else "X") ent.2.2 := by
  rw [buildSig, mem_foldl_buildSigStep]
  simp

/-- The wildcard relabelling of a bracketing. -/
def relabelX (b : Bracketing) : Bracketing := Bracketing.mk "X" b.terminals

theorem foldl_buildSigStep_relabel (p0 p1 : Param) (h0 : p0.LABELED = 0)
    (h1 : p1.LABELED ≠ 0) (hDL : p0.DELETE_LABEL = p1.DELETE_LABEL) :
    ∀ (tuples : List (Int × String × Finset Nat)) (s0 s1 : Sig),
      s0 = Multiset.map relabelX s1 →
      List.foldl (buildSigStep p0) s0 tuples
        = Multiset.map relabelX (List.foldl (buildSigStep p1) s1 tuples) := by
  intro tuples
  induction tuples with
  | nil => intro s0 s1 hs; simpa using hs
  | cons e t ih =>
    intro s0 s1 hs
    rw [List.foldl_cons, List.foldl_cons]
    apply ih
    rw [buildSigStep, buildSigStep, hDL]
    by_cases hc : e.2.1 ∉ p1.DELETE_LABEL ∧ e.2.2 ≠ ∅
    · rw [if_pos hc, if_pos hc, hs, Multiset.map_cons]
      congr 1
      simp [relabelX, h0, h1]
    · rw [if_neg hc, if_neg hc]
      exact hs

/-- In unlabeled mode the built signature is the wildcard relabelling of the
labeled-mode signature. -/
theorem buildSig_relabel (p0 p1 : Param) (h0 : p0.LABELED = 0) (h1 : p1.LABELED ≠ 0)
    (hDL : p0.DELETE_LABEL = p1.DELETE_LABEL)
    (tuples : List (Int × String × Finset Nat)) :
    buildSig p0 tuples = Multiset.map relabelX (buildSig p1 tuples) := by
  rw [buildSig, buildSig]
  exact foldl_buildSigStep_relabel p0 p1 h0 h1 hDL tuples 0 0 rfl

/-! ### Generic facts about `readGo` outputs -/

/-- Every signature and tag set in the output of `readGo` either was already
in the accumulator or is the result of processing one sentence block. -/
theorem readGo_out (param : Param) (deletePos : String) (fuel : Nat)
    (Psig : Sig → Prop) (Ptag : Finset (Nat × String) → Prop)
    (hstep : ∀ lines sentence ls st,
      List.mapM export_split lines = Except.ok sentence →
      buildLabels sentence [] = some ls →
      export_process_sentence sentence (lookupA (updateAssoc ls 0 "VROOT")) param
        deletePos fuel 0 ⟨[], ∅⟩ = .ok st →
      Psig (buildSig param st.tuples) ∧ Ptag st.posTags) :
    ∀ data acc r, readGo param deletePos fuel data acc = .ok r →
      (∀ e ∈ acc.sigs, Psig e.2) → (∀ e ∈ acc.tags, Ptag e.2) →
      (∀ e ∈ r.sigs, Psig e.2) ∧ (∀ e ∈ r.tags, Ptag e.2) := by
  intro data
  induction data with
  | nil =>
    intro acc r h ha hb
    rw [readGo] at h
    cases h
    exact ⟨ha, hb⟩
  | cons blk rest ih =>
    obtain ⟨sentNum, lines⟩ := blk
    intro acc r h ha hb
    rw [readGo] at h
    split at h
    · exact Except.noConfusion h
    · split at h
      · exact Except.noConfusion h
      · dsimp only at h
        split at h
        · exact Except.noConfusion h
        · rename_i x1 sentence hmap x2 ls hls x3 st hst
          refine ih _ r h ?_ ?_
          · intro e he
            rcases mem_updateAssoc e he with he2 | he2
            · subst he2
              exact (hstep lines sentence ls st hmap hls hst).1
            · exact ha e he2
          · intro e he
            rcases mem_updateAssoc e he with he2 | he2
            · subst he2
              exact (hstep lines sentence ls st hmap hls hst).2
            · exact hb e he2

/-! ### `readGo` under two `delete_pos` keys, and under relabelling -/

/-- Reading the same blocks with the same parameters but a different
`delete_pos` key yields identical signature stores. -/
theorem readGo_split (p : Param) (dp1 dp2 : String) (fuel : Nat) :
    ∀ data acc1 acc2 r1 r2,
      acc1.sigs = acc2.sigs →
      readGo p dp1 fuel data acc1 = .ok r1 →
      readGo p dp2 fuel data acc2 = .ok r2 →
      r1.sigs = r2.sigs := by
  intro data
  induction data with
  | nil =>
    intro acc1 acc2 r1 r2 hacc h1 h2
    rw [readGo] at h1
    rw [readGo] at h2
    cases h1
    cases h2
    exact hacc
  | cons blk rest ih =>
    obtain ⟨sentNum, lines⟩ := blk
    intro acc1 acc2 r1 r2 hacc h1 h2
    rw [readGo] at h1
    rw [readGo] at h2
    cases hmap : List.mapM export_split lines with
    | error e => rw [hmap] at h1; exact Except.noConfusion h1
    | ok sentence =>
      rw [hmap] at h1
      rw [hmap] at h2
      dsimp only at h1 h2
      cases hls : buildLabels sentence [] with
      | none => rw [hls] at h1; exact Except.noConfusion h1
      | some ls =>
        rw [hls] at h1
        rw [hls] at h2
        dsimp only at h1 h2
        cases hp1 : export_process_sentence sentence
            (lookupA (updateAssoc ls 0 "VROOT")) p dp1 fuel 0 ⟨[], ∅⟩ with
        | error e => rw [hp1] at h1; exact Except.noConfusion h1
        | ok st1 =>
          have hsplit := export_process_sentence_split sentence
            (lookupA (updateAssoc ls 0 "VROOT")) p p dp1 dp2 rfl fuel 0 [] ∅ ∅
          obtain ⟨st2, hp2, htup⟩ := map_tuples_ok hsplit hp1
          rw [hp1] at h1
          rw [hp2] at h2
          dsimp only at h1 h2
          refine ih _ _ r1 r2 ?_ h1 h2
          dsimp only
          rw [hacc, htup]

/-- Relabel every signature in a signature store with the wildcard label. -/
def relabelSigs (l : List (Int × Sig)) : List (Int × Sig) :=
  l.map (fun e => (e.1, Multiset.map relabelX e.2))

theorem relabelSigs_updateAssoc (l : List (Int × Sig)) (k : Int) (v : Sig) :
    relabelSigs (updateAssoc l k v) = updateAssoc (relabelSigs l) k (Multiset.map relabelX v) := by
  induction l with
  | nil => rfl
  | cons e rest ih =>
    obtain ⟨k', v'⟩ := e
    by_cases hk : k' = k
    · subst hk
      simp [relabelSigs, updateAssoc]
    · rw [updateAssoc, if_neg hk]
      show (k', Multiset.map relabelX v') :: relabelSigs (updateAssoc rest k v)
          = updateAssoc ((k', Multiset.map relabelX v') :: relabelSigs rest) k
              (Multiset.map relabelX v)
      rw [updateAssoc, if_neg hk, ih]

/-- Reading in unlabeled mode produces the wildcard relabelling of the
signature store read in labeled mode. -/
theorem readGo_relabel (p0 p1 : Param) (h0 : p0.LABELED = 0) (h1 : p1.LABELED ≠ 0)
    (hDL : p0.DELETE_LABEL = p1.DELETE_LABEL) (dp : String) (fuel : Nat) :
    ∀ data acc0 acc1,
      acc0.sigs = relabelSigs acc1.sigs →
      Except.map ReadResult.sigs (readGo p0 dp fuel data acc0)
        = Except.map (fun r => relabelSigs r.sigs) (readGo p1 dp fuel data acc1) := by
  intro data
  induction data with
  | nil =>
    intro acc0 acc1 hacc
    rw [readGo, readGo]
    dsimp only [Except.map]
    rw [hacc]
  | cons blk rest ih =>
    obtain ⟨sentNum, lines⟩ := blk
    intro acc0 acc1 hacc
    conv_lhs => rw [readGo]
    conv_rhs => rw [readGo]
    cases hmap : List.mapM export_split lines with
    | error e => rfl
    | ok sentence =>
      dsimp only
      cases hls : buildLabels sentence [] with
      | none => rfl
      | some ls =>
        dsimp only
        have hsplit := export_process_sentence_split sentence
          (lookupA (updateAssoc ls 0 "VROOT")) p0 p1 dp dp hDL fuel 0 [] ∅ ∅
        cases hp0 : export_process_sentence sentence
            (lookupA (updateAssoc ls 0 "VROOT")) p0 dp fuel 0 ⟨[], ∅⟩ with
        | error e =>
          have hp1e := map_tuples_error hsplit hp0
          rw [hp1e]
          rfl
        | ok st0 =>
          obtain ⟨st1, hp1, htup⟩ := map_tuples_ok hsplit hp0
          rw [hp1]
          dsimp only
          apply ih
          dsimp only
          rw [relabelSigs_updateAssoc, hacc]
          rw [htup, buildSig_relabel p0 p1 h0 h1 hDL]

/-! ### Pure forms of the per-sentence derived metrics -/

/-- Guarded precision: `100 * matched / test-total`, `0` when the test
signature is empty (the code guards on the number of distinct bracketings). -/
def precOf (kSig aSig : Sig) : ℚ :=
  if 0 < aSig.toFinset.card then
    100 * (matchCount kSig aSig : ℚ) / (Multiset.card aSig : ℚ) else 0

/-- Guarded recall: `100 * matched / gold-total`, `0` when the gold signature
is empty. -/
def recOf (kSig aSig : Sig) : ℚ :=
  if 0 < kSig.toFinset.card then
    100 * (matchCount kSig aSig : ℚ) / (Multiset.card kSig : ℚ) else 0

/-- Guarded F1: the harmonic mean of precision and recall, `0` when their sum
is `0`. -/
def fb1Of (p r : ℚ) : ℚ :=
  if 0 < p + r then 2 * p * r / (p + r) else 0

/-- Inversion of a successful `scoreSentence` call: either the sentence was
skipped by the length cutoff, or all lookups succeeded and the counters and
the new row are exactly the computed values. -/
theorem scoreSentence_inv (param : Param) (ks : List (Int × Sig))
    (kt : List (Int × Finset (Nat × String))) (ansS : List (Int × Sig))
    (ansT : List (Int × Finset (Nat × String))) (n : Int) (st st' : LoopState)
    (h : scoreSentence param ks kt ansS ansT n st = .ok st') :
    (∃ ktags, lookupA kt n = some ktags ∧
      (ktags.card : Int) > param.CUTOFF_LEN ∧ st' = st) ∨
    (∃ ktags kSig aSig minc atags,
      lookupA kt n = some ktags ∧ ¬((ktags.card : Int) > param.CUTOFF_LEN) ∧
      lookupA ks n = some kSig ∧
      ((lookupA ansS n = some aSig ∧ minc = 0) ∨
        (lookupA ansS n = none ∧ aSig = 0 ∧ minc = 1)) ∧
      lookupA ansT n = some atags ∧
      st' = { missing := st.missing + minc,
              totalMatch := st.totalMatch + matchCount kSig aSig,
              totalKey := st.totalKey + Multiset.card kSig,
              totalAnswer := st.totalAnswer + Multiset.card aSig,
              totalExact := st.totalExact + (if kSig = aSig then 1 else 0),
              totalWords := st.totalWords + ktags.card,
              totalMatchedPos := st.totalMatchedPos + (ktags ∩ atags).card,
              totalSents := st.totalSents + 1,
              rows := st.rows ++ [⟨n, precOf kSig aSig, recOf kSig aSig,
                fb1Of (precOf kSig aSig) (recOf kSig aSig),
                matchCount kSig aSig, Multiset.card kSig, Multiset.card aSig,
                atags.card, (ktags ∩ atags).card, decide (kSig = aSig)⟩] }) := by
  rw [scoreSentence] at h
  split at h
  · exact Except.noConfusion h
  · rename_i ktags hktags
    split at h
    · rename_i hcut
      cases h
      exact Or.inl ⟨ktags, hktags, hcut, rfl⟩
    · rename_i hcut
      split at h
      · exact Except.noConfusion h
      · rename_i kSig hks
        refine Or.inr ?_
        cases hans : lookupA ansS n with
        | none =>
          rw [hans] at h
          dsimp only at h
          split at h
          · exact Except.noConfusion h
          · rename_i sentPrec heqP
            split at h
            · exact Except.noConfusion h
            · rename_i sentRec heqR
              split at h
              · exact Except.noConfusion h
              · rename_i sentFb1 heqF
                split at h
                · exact Except.noConfusion h
                · rename_i atags hatags
                  cases h
                  have hP : sentPrec = precOf kSig 0 := by
                    rw [precOf]
                    split at heqP
                    · rename_i hg
                      simp at hg
                    · rename_i hg
                      rw [if_neg hg]
                      exact (Except.ok.inj heqP).symm
                  have hR : sentRec = recOf kSig 0 := by
                    rw [recOf]
                    split at heqR
                    · rename_i hg
                      rw [if_pos hg]
                      rw [pydiv] at heqR
                      split at heqR
                      · exact Except.noConfusion heqR
                      · exact (Except.ok.inj heqR).symm
                    · rename_i hg
                      rw [if_neg hg]
                      exact (Except.ok.inj heqR).symm
                  have hF : sentFb1 = fb1Of (precOf kSig 0) (recOf kSig 0) := by
                    rw [fb1Of, ← hP, ← hR]
                    split at heqF
                    · rename_i hg
                      rw [if_pos hg]
                      rw [pydiv] at heqF
                      split at heqF
                      · exact Except.noConfusion heqF
                      · exact (Except.ok.inj heqF).symm
                    · rename_i hg
                      rw [if_neg hg]
                      exact (Except.ok.inj heqF).symm
                  refine ⟨ktags, kSig, 0, 1, atags, hktags, hcut, hks,
                    Or.inr ⟨rfl, rfl, rfl⟩, hatags, ?_⟩
                  rw [← hF, ← hP, ← hR]
        | some aSig =>
          rw [hans] at h
          dsimp only at h
          split at h
          · exact Except.noConfusion h
          · rename_i sentPrec heqP
            split at h
            · exact Except.noConfusion h
            · rename_i sentRec heqR
              split at h
              · exact Except.noConfusion h
              · rename_i sentFb1 heqF
                split at h
                · exact Except.noConfusion h
                · rename_i atags hatags
                  cases h
                  have hP : sentPrec = precOf kSig aSig := by
                    rw [precOf]
                    split at heqP
                    · rename_i hg
                      rw [if_pos hg]
                      rw [pydiv] at heqP
                      split at heqP
                      · exact Except.noConfusion heqP
                      · exact (Except.ok.inj heqP).symm
                    · rename_i hg
                      rw [if_neg hg]
                      exact (Except.ok.inj heqP).symm
                  have hR : sentRec = recOf kSig aSig := by
                    rw [recOf]
                    split at heqR
                    · rename_i hg
                      rw [if_pos hg]
                      rw [pydiv] at heqR
                      split at heqR
                      · exact Except.noConfusion heqR
                      · exact (Except.ok.inj heqR).symm
                    · rename_i hg
                      rw [if_neg hg]
                      exact (Except.ok.inj heqR).symm
                  have hF : sentFb1 = fb1Of (precOf kSig aSig) (recOf kSig aSig) := by
                    rw [fb1Of, ← hP, ← hR]
                    split at heqF
                    · rename_i hg
                      rw [if_pos hg]
                      rw [pydiv] at heqF
                      split at heqF
                      · exact Except.noConfusion heqF
                      · exact (Except.ok.inj heqF).symm
                    · rename_i hg
                      rw [if_neg hg]
                      exact (Except.ok.inj heqF).symm
                  refine ⟨ktags, kSig, aSig, 0, atags, hktags, hcut, hks,
                    Or.inl ⟨rfl, rfl⟩, hatags, ?_⟩
                  rw [← hF, ← hP, ← hR]

/-! ### Errors of the per-sentence scorer -/

/-- A failing `scoreSentence` call can only raise `KeyError` or the
"no data" `ValueError`; in particular it never raises `ZeroDivisionError`:
every per-sentence division is guarded. -/
theorem scoreSentence_err (param : Param) (ks : List (Int × Sig))
    (kt : List (Int × Finset (Nat × String))) (ansS : List (Int × Sig))
    (ansT : List (Int × Finset (Nat × String))) (n : Int) (st : LoopState) (e : Err)
    (h : scoreSentence param ks kt ansS ansT n st = .error e) :
    e = .keyError ∨ e = .valueError "no data for sent. in key" := by
  rw [scoreSentence] at h
  split at h
  · cases h; exact Or.inl rfl
  · split at h
    · exact Except.noConfusion h
    · split at h
      · cases h; exact Or.inr rfl
      · rename_i kSig hks
        cases hans : lookupA ansS n with
        | none =>
          rw [hans] at h
          dsimp only at h
          split at h
          · rename_i e0 heqP
            cases h
            split at heqP
            · rename_i hg
              simp at hg
            · exact Except.noConfusion heqP
          · rename_i sentPrec heqP
            split at h
            · rename_i e0 heqR
              cases h
              split at heqR
              · rename_i hg
                rw [pydiv] at heqR
                split at heqR
                · rename_i hz
                  exfalso
                  have hpos := (sig_toFinset_card_pos_iff _).mp hg
                  exact (Nat.cast_ne_zero.mpr (Nat.pos_iff_ne_zero.mp hpos)) hz
                · exact Except.noConfusion heqR
              · exact Except.noConfusion heqR
            · rename_i sentRec heqR
              split at h
              · rename_i e0 heqF
                cases h
                split at heqF
                · rename_i hg
                  rw [pydiv] at heqF
                  split at heqF
                  · rename_i hz
                    exact absurd hz (ne_of_gt hg)
                  · exact Except.noConfusion heqF
                · exact Except.noConfusion heqF
              · rename_i sentFb1 heqF
                split at h
                · cases h; exact Or.inl rfl
                · exact Except.noConfusion h
        | some aSig =>
          rw [hans] at h
          dsimp only at h
          split at h
          · rename_i e0 heqP
            cases h
            split at heqP
            · rename_i hg
              rw [pydiv] at heqP
              split at heqP
              · rename_i hz
                exfalso
                have hpos := (sig_toFinset_card_pos_iff _).mp hg
                exact (Nat.cast_ne_zero.mpr (Nat.pos_iff_ne_zero.mp hpos)) hz
              · exact Except.noConfusion heqP
            · exact Except.noConfusion heqP
          · rename_i sentPrec heqP
            split at h
            · rename_i e0 heqR
              cases h
              split at heqR
              · rename_i hg
                rw [pydiv] at heqR
                split at heqR
                · rename_i hz
                  exfalso
                  have hpos := (sig_toFinset_card_pos_iff _).mp hg
                  exact (Nat.cast_ne_zero.mpr (Nat.pos_iff_ne_zero.mp hpos)) hz
                · exact Except.noConfusion heqR
              · exact Except.noConfusion heqR
            · rename_i sentRec heqR
              split at h
              · rename_i e0 heqF
                cases h
                split at heqF
                · rename_i hg
                  rw [pydiv] at heqF
                  split at heqF
                  · rename_i hz
                    exact absurd hz (ne_of_gt hg)
                  · exact Except.noConfusion heqF
                · exact Except.noConfusion heqF
              · rename_i sentFb1 heqF
                split at h
                · cases h; exact Or.inl rfl
                · exact Except.noConfusion h

/-! ### Row specifications -/

/-- The specification of one emitted row: guarded precision, recall and F1
as total functions of the row counters. -/
def RowSpec (row : Row) : Prop :=
  row.sentPrec = (if row.sentAnswer = 0 then 0
    else 100 * (row.sentMatched : ℚ) / (row.sentAnswer : ℚ)) ∧
  row.sentRec = (if row.sentKey = 0 then 0
    else 100 * (row.sentMatched : ℚ) / (row.sentKey : ℚ)) ∧
  row.sentFb1 = (if row.sentPrec + row.sentRec = 0 then 0
    else 2 * row.sentPrec * row.sentRec / (row.sentPrec + row.sentRec))

theorem precOf_eq (k a : Sig) :
    precOf k a = if Multiset.card a = 0 then 0
      else 100 * (matchCount k a : ℚ) / (Multiset.card a : ℚ) := by
  rw [precOf]
  by_cases hc : Multiset.card a = 0
  · have hng : ¬0 < a.toFinset.card := by
      rw [sig_toFinset_card_pos_iff]; omega
    rw [if_neg hng, if_pos hc]
  · have hg : 0 < a.toFinset.card := by
      rw [sig_toFinset_card_pos_iff]; omega
    rw [if_pos hg, if_neg hc]

theorem recOf_eq (k a : Sig) :
    recOf k a = if Multiset.card k = 0 then 0
      else 100 * (matchCount k a : ℚ) / (Multiset.card k : ℚ) := by
  rw [recOf]
  by_cases hc : Multiset.card k = 0
  · have hng : ¬0 < k.toFinset.card := by
      rw [sig_toFinset_card_pos_iff]; omega
    rw [if_neg hng, if_pos hc]
  · have hg : 0 < k.toFinset.card := by
      rw [sig_toFinset_card_pos_iff]; omega
    rw [if_pos hg, if_neg hc]

theorem precOf_nonneg (k a : Sig) : 0 ≤ precOf k a := by
  rw [precOf]
  split
  · positivity
  · exact le_refl 0

theorem recOf_nonneg (k a : Sig) : 0 ≤ recOf k a := by
  rw [recOf]
  split
  · positivity
  · exact le_refl 0

theorem fb1Of_eq (p r : ℚ) (hp : 0 ≤ p) (hr : 0 ≤ r) :
    fb1Of p r = if p + r = 0 then 0 else 2 * p * r / (p + r) := by
  by_cases hc : p + r = 0
  · simp [fb1Of, hc]
  · have hlt : 0 < p + r := lt_of_le_of_ne (by positivity) (Ne.symm hc)
    rw [fb1Of, if_pos hlt, if_neg hc]

/-- Every row emitted by the sentence loop satisfies `RowSpec`. -/
theorem evalLoop_rows (param : Param) (ks : List (Int × Sig))
    (kt : List (Int × Finset (Nat × String))) (ansS : List (Int × Sig))
    (ansT : List (Int × Finset (Nat × String))) :
    ∀ nums st st', evalLoop param ks kt ansS ansT nums st = .ok st' →
      (∀ row ∈ st.rows, RowSpec row) → ∀ row ∈ st'.rows, RowSpec row := by
  intro nums
  induction nums with
  | nil =>
    intro st st' h hr
    rw [evalLoop] at h
    cases h
    exact hr
  | cons n rest ih =>
    intro st st' h hr
    rw [evalLoop] at h
    split at h
    · exact Except.noConfusion h
    · rename_i st1 hs1
      refine ih st1 st' h ?_
      rcases scoreSentence_inv _ _ _ _ _ _ _ _ hs1 with
        ⟨ktags, _, _, hst⟩ | ⟨ktags, kSig, aSig, minc, atags, _, _, _, _, _, hst⟩
      · subst hst; exact hr
      · subst hst
        intro row hrow
        dsimp only at hrow
        rcases List.mem_append.mp hrow with hrow | hrow
        · exact hr row hrow
        · have hrow2 := List.mem_singleton.mp hrow
          subst hrow2
          refine ⟨precOf_eq kSig aSig, recOf_eq kSig aSig,
            fb1Of_eq _ _ (precOf_nonneg kSig aSig) (recOf_nonneg kSig aSig)⟩

/-- The sentence loop never raises the two input-mismatch errors. -/
theorem evalLoop_err (param : Param) (ks : List (Int × Sig))
    (kt : List (Int × Finset (Nat × String))) (ansS : List (Int × Sig))
    (ansT : List (Int × Finset (Nat × String))) :
    ∀ nums st e, evalLoop param ks kt ansS ansT nums st = .error e →
      e = .keyError ∨ e = .valueError "no data for sent. in key" := by
  intro nums
  induction nums with
  | nil =>
    intro st e h
    rw [evalLoop] at h
    exact Except.noConfusion h
  | cons n rest ih =>
    intro st e h
    rw [evalLoop] at h
    split at h
    · rename_i e0 hs
      cases h
      exact scoreSentence_err _ _ _ _ _ _ _ _ hs
    · rename_i st1 hs1
      exact ih st1 e h

/-! ### Self evaluation -/

/-- The per-row property of a self evaluation: the row is an exact match and,
when the gold signature is non-empty, scores 100% precision, recall and F1. -/
def SelfRow (row : Row) : Prop :=
  row.exactMatch = true ∧
  (0 < row.sentKey → row.sentPrec = 100 ∧ row.sentRec = 100 ∧ row.sentFb1 = 100)

theorem precOf_self (s : Sig) (hs : 0 < Multiset.card s) : precOf s s = 100 := by
  rw [precOf, if_pos ((sig_toFinset_card_pos_iff s).mpr hs), matchCount_self]
  have hne : (Multiset.card s : ℚ) ≠ 0 :=
    Nat.cast_ne_zero.mpr (Nat.pos_iff_ne_zero.mp hs)
  rw [mul_div_assoc, div_self hne, mul_one]

theorem recOf_self (s : Sig) (hs : 0 < Multiset.card s) : recOf s s = 100 := by
  rw [recOf, if_pos ((sig_toFinset_card_pos_iff s).mpr hs), matchCount_self]
  have hne : (Multiset.card s : ℚ) ≠ 0 :=
    Nat.cast_ne_zero.mpr (Nat.pos_iff_ne_zero.mp hs)
  rw [mul_div_assoc, div_self hne, mul_one]

theorem fb1Of_100 : fb1Of 100 100 = 100 := by
  norm_num [fb1Of]

/-- When the answer signature store is the gold signature store, the loop
counts every scored sentence as exact, and every emitted row is a
`SelfRow`. -/
theorem evalLoop_self (param : Param) (ks : List (Int × Sig))
    (kt : List (Int × Finset (Nat × String)))
    (ansT : List (Int × Finset (Nat × String))) :
    ∀ nums st st', evalLoop param ks kt ks ansT nums st = .ok st' →
      st.totalExact = st.totalSents → (∀ row ∈ st.rows, SelfRow row) →
      st'.totalExact = st'.totalSents ∧ (∀ row ∈ st'.rows, SelfRow row) := by
  intro nums
  induction nums with
  | nil =>
    intro st st' h h1 h2
    rw [evalLoop] at h
    cases h
    exact ⟨h1, h2⟩
  | cons n rest ih =>
    intro st st' h h1 h2
    rw [evalLoop] at h
    split at h
    · exact Except.noConfusion h
    · rename_i st1 hs1
      have hstep : st1.totalExact = st1.totalSents ∧ (∀ row ∈ st1.rows, SelfRow row) := by
        rcases scoreSentence_inv _ _ _ _ _ _ _ _ hs1 with
          ⟨ktags, _, _, hst⟩ | ⟨ktags, kSig, aSig, minc, atags, _, _, hks, hdisj, _, hst⟩
        · subst hst; exact ⟨h1, h2⟩
        · rcases hdisj with ⟨hsome, hminc⟩ | ⟨hnone, _, _⟩
          · rw [hks] at hsome
            have haSig : aSig = kSig := (Option.some.inj hsome).symm
            subst haSig
            subst hst
            constructor
            · dsimp only
              rw [if_pos rfl]
              omega
            · intro row hrow
              dsimp only at hrow
              rcases List.mem_append.mp hrow with hrow | hrow
              · exact h2 row hrow
              · have hrow2 := List.mem_singleton.mp hrow
                subst hrow2
                constructor
                · dsimp only
                  exact decide_eq_true rfl
                · intro hpos
                  dsimp only at hpos
                  refine ⟨precOf_self aSig hpos, recOf_self aSig hpos, ?_⟩
                  dsimp only
                  rw [precOf_self aSig hpos, recOf_self aSig hpos, fb1Of_100]
          · rw [hks] at hnone
            exact Option.noConfusion hnone
      exact ih st1 st' h hstep.1 hstep.2

/-! ### Inversion of a successful `evaluate` run -/

theorem evaluate_ok_inv (keyData answerData : List (Int × List String))
    (param : Param) (fuel : Nat) (m : Metrics)
    (h : evaluate keyData answerData param fuel = .ok m) :
    ∃ kr ar st,
      read_from_export keyData param "DELETE_LABEL_FOR_LENGTH" fuel = .ok kr ∧
      read_from_export answerData param "DELETE_LABEL" fuel = .ok ar ∧
      evalLoop param kr.sigs kr.tags ar.sigs ar.tags
        (sortInts (kr.sigs.map Prod.fst)) {} = .ok st ∧
      m.rows = st.rows ∧ m.totalExact = st.totalExact ∧
      m.totalSents = st.totalSents ∧ (st.totalSents : ℚ) ≠ 0 ∧
      m.exPct = 100 * (st.totalExact : ℚ) / (st.totalSents : ℚ) := by
  rw [evaluate] at h
  split at h
  · exact Except.noConfusion h
  · rename_i kr hkr
    split at h
    · exact Except.noConfusion h
    · rename_i ar har
      split at h
      · exact Except.noConfusion h
      · split at h
        · exact Except.noConfusion h
        · dsimp only at h
          split at h
          · exact Except.noConfusion h
          · rename_i st hloop
            rw [summarize] at h
            split at h
            · exact Except.noConfusion h
            · rename_i precTotal heqPT
              split at h
              · exact Except.noConfusion h
              · rename_i recTotal heqRT
                split at h
                · exact Except.noConfusion h
                · rename_i fb1Total heqFT
                  split at h
                  · exact Except.noConfusion h
                  · rename_i posAcc heqPA
                    split at h
                    · exact Except.noConfusion h
                    · rename_i exPct heqEX
                      cases h
                      rw [pydiv] at heqEX
                      split at heqEX
                      · exact Except.noConfusion heqEX
                      · rename_i hz
                        refine ⟨kr, ar, st, hkr, har, hloop, rfl, rfl, rfl, hz, ?_⟩
                        exact (Except.ok.inj heqEX).symm

/-! ### Errors of the summary block -/

/-- A failing `summarize` call is always a `ZeroDivisionError` (the POS and
exact-match percentages divide by `total_words` and `total_sents`
unguarded). -/
theorem summarize_err (st : LoopState) (e : Err) (h : summarize st = .error e) :
    e = .zeroDivisionError := by
  rw [summarize] at h
  split at h
  · rename_i e0 heq
    cases h
    split at heq
    · rw [pydiv] at heq
      split at heq
      · cases heq; rfl
      · exact Except.noConfusion heq
    · exact Except.noConfusion heq
  · rename_i precTotal heqPT
    split at h
    · rename_i e0 heq
      cases h
      split at heq
      · rw [pydiv] at heq
        split at heq
        · cases heq; rfl
        · exact Except.noConfusion heq
      · exact Except.noConfusion heq
    · rename_i recTotal heqRT
      split at h
      · rename_i e0 heq
        cases h
        split at heq
        · rw [pydiv] at heq
          split at heq
          · cases heq; rfl
          · exact Except.noConfusion heq
        · exact Except.noConfusion heq
      · rename_i fb1Total heqFT
        split at h
        · rename_i e0 heq
          cases h
          rw [pydiv] at heq
          split at heq
          · cases heq; rfl
          · exact Except.noConfusion heq
        · rename_i posAcc heqPA
          split at h
          · rename_i e0 heq
            cases h
            rw [pydiv] at heq
            split at heq
            · cases heq; rfl
            · exact Except.noConfusion heq
          · exact Except.noConfusion h

/-! ### C2: dangling parent references -/

/-- **C2 (amended).** The Yield Extractor does not abort on a dangling
parent reference: a record whose parent id parses but is a node id never
declared in the sentence (and is not the synthetic root id `0`) is silently
omitted — its terminal position appears in no node's yield and its
`(position, tag)` pair is never counted in the POS bookkeeping. -/
theorem dangling_parent_silently_omitted
    (sentence : List Fields) (ls : List (Int × String)) (param : Param)
    (deletePos : String) (fuel : Nat) (st' : PState) (i : Nat) (f : Fields) (p : Int)
    (hls : buildLabels sentence [] = some ls)
    (hproc : export_process_sentence sentence (lookupA (updateAssoc ls 0 "VROOT"))
      param deletePos fuel 0 ⟨[], ∅⟩ = .ok st')
    (hrec : sentence[i]? = some f)
    (hpar : pyInt? (parentF f) = some p)
    (hdangle : lookupA (updateAssoc ls 0 "VROOT") p = none) :
    (∀ ent ∈ st'.tuples, (i + 1) ∉ ent.2.2) ∧ (∀ t, (i, t) ∉ st'.posTags) := by
  have hgood := export_process_sentence_good sentence
    (lookupA (updateAssoc ls 0 "VROOT")) param deletePos fuel 0 _ st' hproc
    ⟨fun e he => absurd he (Finset.not_mem_empty e),
     fun ent hent => absurd hent (List.not_mem_nil ent)⟩
  constructor
  · intro ent hent hq
    obtain ⟨i', f', hq', hget, _, _, p', hp', hsome⟩ := (hgood.2 ent hent).2 (i + 1) hq
    have hii : i' = i := by omega
    subst hii
    rw [hrec] at hget
    have hf : f = f' := Option.some.inj hget
    subst hf
    rw [hpar] at hp'
    have hp2 : p = p' := Option.some.inj hp'
    subst hp2
    rw [hdangle] at hsome
    simp at hsome
  · intro t ht
    obtain ⟨f', hget, _, _, _, p', hp', hsome⟩ := hgood.1 (i, t) ht
    rw [hrec] at hget
    have hf : f = f' := Option.some.inj hget
    subst hf
    rw [hpar] at hp'
    have hp2 : p = p' := Option.some.inj hp'
    subst hp2
    rw [hdangle] at hsome
    simp at hsome

/-- **C2 counterexample.** A sentence whose second record points to parent
700, a node id never declared: reading succeeds normally (no error of any
kind), and the produced signature and POS bookkeeping silently omit that
record — refuting the claim that such input aborts the run. -/
theorem dangling_parent_not_fatal :
    read_from_export [(1, ["w1 T1 m f 0", "w2 T2 m f 700"])] defaultParam
        "DELETE_LABEL_FOR_LENGTH" 10
      = .ok ⟨[(1, ({⟨"VROOT", {1}⟩} : Sig))],
             [(1, ({(0, "T1")} : Finset (Nat × String)))]⟩ := by decide

/-- Witness for the amended C2 theorem at a concrete input. -/
theorem dangling_parent_silently_omitted_witness :
    ((1 : Nat) + 1) ∉ (((0 : Int), ("VROOT", ({1} : Finset Nat))) : Int × String × Finset Nat).2.2 ∧
    ((1 : Nat), "T2") ∉ ({((0 : Nat), "T1")} : Finset (Nat × String)) := by
  have h := dangling_parent_silently_omitted
    [["w1", "", "T1", "m", "f", "0"], ["w2", "", "T2", "m", "f", "700"]] []
    defaultParam "DELETE_LABEL_FOR_LENGTH" 10
    ⟨[(0, ("VROOT", {1}))], {(0, "T1")}⟩ 1 ["w2", "", "T2", "m", "f", "700"] 700
    (by decide) (by decide) (by decide) (by decide) (by decide)
  exact ⟨h.1 (0, ("VROOT", {1})) (by decide), h.2 "T2"⟩

/-! ### C3: which inputs abort with the input-mismatch errors -/

/-- **C3 (amended).** Given that both files read successfully, the run
aborts with `ValueError("no sentences in key")` iff the gold file parsed to
zero sentences — before any cutoff filtering — and with
`ValueError("more sentences in answer than key")` iff gold is non-empty and
the answer has strictly more sentences.  (A gold file whose sentences are
all excluded by the length cutoff passes both checks and instead crashes
with `ZeroDivisionError` in the summary; see the counterexample.) -/
theorem evaluate_mismatch_iff (keyData answerData : List (Int × List String))
    (param : Param) (fuel : Nat) (kr ar : ReadResult)
    (hk : read_from_export keyData param "DELETE_LABEL_FOR_LENGTH" fuel = .ok kr)
    (ha : read_from_export answerData param "DELETE_LABEL" fuel = .ok ar) :
    ((evaluate keyData answerData param fuel
        = .error (.valueError "no sentences in key")) ↔ kr.sigs = []) ∧
    ((evaluate keyData answerData param fuel
        = .error (.valueError "more sentences in answer than key"))
      ↔ (kr.sigs ≠ [] ∧ ar.sigs.length > kr.sigs.length)) := by
  rw [evaluate, hk, ha]
  dsimp only
  by_cases hemp : kr.sigs.isEmpty = true
  · have hnil : kr.sigs = [] := by
      cases hsig : kr.sigs with
      | nil => rfl
      | cons a t => rw [hsig] at hemp; simp at hemp
    rw [if_pos hemp]
    constructor
    · exact ⟨fun _ => hnil, fun _ => rfl⟩
    · constructor
      · intro heq
        have hstr := Err.valueError.inj (Except.error.inj heq)
        exact absurd hstr (by decide)
      · rintro ⟨hne, _⟩
        exact absurd hnil hne
  · have hnonnil : kr.sigs ≠ [] := by
      intro hnil
      rw [hnil] at hemp
      exact hemp rfl
    rw [if_neg hemp]
    by_cases hlen : ar.sigs.length > kr.sigs.length
    · rw [if_pos hlen]
      constructor
      · constructor
        · intro heq
          have hstr := Err.valueError.inj (Except.error.inj heq)
          exact absurd hstr (by decide)
        · intro hnil
          exact absurd hnil hnonnil
      · exact ⟨fun _ => ⟨hnonnil, hlen⟩, fun _ => rfl⟩
    · rw [if_neg hlen]
      have htail : ∀ e : Err,
          (match evalLoop param kr.sigs kr.tags ar.sigs ar.tags
              (sortInts (kr.sigs.map Prod.fst)) ({} : LoopState) with
            | .error e0 => (Except.error e0 : Except Err Metrics)
            | .ok st => summarize st) = .error e →
          e = .keyError ∨ e = .valueError "no data for sent. in key" ∨
            e = .zeroDivisionError := by
        intro e hmatch
        cases hload : evalLoop param kr.sigs kr.tags ar.sigs ar.tags
            (sortInts (kr.sigs.map Prod.fst)) ({} : LoopState) with
        | error e0 =>
          rw [hload] at hmatch
          cases hmatch
          rcases evalLoop_err param kr.sigs kr.tags ar.sigs ar.tags _ _ _ hload with h | h
          · exact Or.inl h
          · exact Or.inr (Or.inl h)
        | ok st =>
          rw [hload] at hmatch
          dsimp only at hmatch
          exact Or.inr (Or.inr (summarize_err st e hmatch))
      constructor
      · constructor
        · intro heq
          rcases htail _ heq with h | h | h <;> exact absurd h (by decide)
        · intro hnil
          exact absurd hnil hnonnil
      · constructor
        · intro heq
          rcases htail _ heq with h | h | h <;> exact absurd h (by decide)
        · rintro ⟨_, hl⟩
          exact absurd hl hlen

/-- The parameter set with a zero length cutoff. -/
def cutoffParam : Param := { CUTOFF_LEN := 0 }

/-- **C3 counterexample.** A gold file whose only sentence is excluded by
the length cutoff: the claim requires an `InputMismatchError` abort, but the
run passes both input checks (gold parsed one sentence, with one counted
tag, exceeding the cutoff of 0) and instead dies with `ZeroDivisionError`
in the summary block. -/
theorem cutoff_gold_zero_division :
    evaluate [(1, ["w T m f 0"])] [(1, ["w T m f 0"])] cutoffParam 10
      = .error .zeroDivisionError ∧
    read_from_export [(1, ["w T m f 0"])] cutoffParam "DELETE_LABEL_FOR_LENGTH" 10
      = .ok ⟨[(1, ({⟨"VROOT", {1}⟩} : Sig))],
             [(1, ({(0, "T")} : Finset (Nat × String)))]⟩ ∧
    ((({(0, "T")} : Finset (Nat × String)).card : Int) > cutoffParam.CUTOFF_LEN) := by
  refine ⟨by decide, by decide, by decide⟩

/-- Witness for the amended C3 theorem at a concrete input. -/
theorem evaluate_mismatch_iff_witness :
    ((evaluate [] [] defaultParam 10 = .error (.valueError "no sentences in key"))
      ↔ (⟨[], []⟩ : ReadResult).sigs = []) ∧
    ((evaluate [] [] defaultParam 10
        = .error (.valueError "more sentences in answer than key"))
      ↔ ((⟨[], []⟩ : ReadResult).sigs ≠ [] ∧
          (⟨[], []⟩ : ReadResult).sigs.length > (⟨[], []⟩ : ReadResult).sigs.length)) :=
  evaluate_mismatch_iff [] [] defaultParam 10 ⟨[], []⟩ ⟨[], []⟩ (by decide) (by decide)

/-! ### C4: the format checks of `export_split` -/

theorem getD_of_get? {α : Type _} {l : List α} {n : Nat} {x : α}
    (h : l.get? n = some x) (d : α) : l.getD n d = x := by
  rw [List.getD_eq_getElem?_getD, ← List.get?_eq_getElem?, h]; rfl

theorem pyInt?_of_isdigit (s : String) (h : pyIsdigit s = true) :
    pyInt? s = some (digitsToNat s.toList : Int) := by
  rw [pyIsdigit] at h
  rw [pyInt?]
  cases hs : s.toList with
  | nil => rw [hs] at h; exact absurd h (by decide)
  | cons c rest =>
    rw [hs] at h
    simp only [List.isEmpty_cons, Bool.not_false, Bool.true_and, List.all_cons,
      Bool.and_eq_true] at h
    have hdig : c.isDigit = true := h.1
    have hc1 : ¬(c = '-') := fun heq => by rw [heq] at hdig; exact absurd hdig (by decide)
    have hc2 : ¬(c = '+') := fun heq => by rw [heq] at hdig; exact absurd hdig (by decide)
    dsimp only
    rw [if_neg hc1, if_neg hc2, if_pos (by simp [hdig, h.2])]


theorem export_split_fields_ok_shape (fields fs : List String)
    (h : export_split_fields fields = .ok fs) :
    fs = (if pyIsdigit (fields.getD 4 "") then
      fields.take 1 ++ "" :: fields.drop 1 else fields).take 6 := by
  rw [export_split_fields] at h
  cases h4 : fields.get? 4 with
  | none => rw [h4] at h; exact Except.noConfusion h
  | some f4 =>
    rw [h4] at h
    dsimp only at h
    rw [getD_of_get? h4]
    split at h
    · exact Except.noConfusion h
    · split at h
      · exact Except.noConfusion h
      · split at h
        · exact Except.noConfusion h
        · split at h
          · exact (Except.ok.inj h).symm
          · exact Except.noConfusion h

theorem export_split_fields_error_iff (fields : List String) :
    (∃ err, export_split_fields fields = .error err) ↔
      (fields.length < 5
        ∨ (fields.length = 5 ∧ pyIsdigit (fields.getD 4 "") = false)
        ∨ (startsWithHash (fields.getD 0 "") = true ∧
            (pyInt? (strTail (fields.getD 0 "")) = none ∨
              ∃ n, pyInt? (strTail (fields.getD 0 "")) = some n ∧
                ¬(n = 0 ∨ (500 ≤ n ∧ n ≤ 999))))
        ∨ (pyInt? (if pyIsdigit (fields.getD 4 "") then fields.getD 4 ""
              else fields.getD 5 "") = none ∨
            ∃ p, pyInt? (if pyIsdigit (fields.getD 4 "") then fields.getD 4 ""
                else fields.getD 5 "") = some p ∧
              ¬((500 ≤ p ∧ p ≤ 999) ∨ p = 0))) := by
  rcases fields with _ | ⟨a, _ | ⟨b, _ | ⟨c, _ | ⟨d, _ | ⟨e, rest⟩⟩⟩⟩⟩
  · exact ⟨fun _ => Or.inl (by simp), fun _ => ⟨.indexError, rfl⟩⟩
  · exact ⟨fun _ => Or.inl (by simp), fun _ => ⟨.indexError, rfl⟩⟩
  · exact ⟨fun _ => Or.inl (by simp), fun _ => ⟨.indexError, rfl⟩⟩
  · exact ⟨fun _ => Or.inl (by simp), fun _ => ⟨.indexError, rfl⟩⟩
  · exact ⟨fun _ => Or.inl (by simp), fun _ => ⟨.indexError, rfl⟩⟩
  · have hg4 : (a :: b :: c :: d :: e :: rest).getD 4 "" = e := rfl
    have hg0 : (a :: b :: c :: d :: e :: rest).getD 0 "" = a := rfl
    have hlen : ¬((a :: b :: c :: d :: e :: rest).length < 5) := by
      simp only [List.length_cons]
      omega
    have hnode : (∃ err, (if startsWithHash a = true then
          match pyInt? (strTail a) with
          | none => Except.error (Err.valueError "invalid literal for int")
          | some nodenum =>
            if nodenum = 0 ∨ (500 ≤ nodenum ∧ nodenum ≤ 999) then Except.ok ()
            else Except.error (Err.valueError "node number must >= 500 and <= 999")
        else (Except.ok () : Except Err Unit)) = Except.error err) ↔
        (startsWithHash a = true ∧
          (pyInt? (strTail a) = none ∨
            ∃ n, pyInt? (strTail a) = some n ∧ ¬(n = 0 ∨ (500 ≤ n ∧ n ≤ 999)))) := by
      by_cases hsw : startsWithHash a
      · rw [if_pos hsw]
        cases hn : pyInt? (strTail a) with
        | none =>
          exact ⟨fun _ => ⟨hsw, Or.inl rfl⟩, fun _ => ⟨.valueError "invalid literal for int", rfl⟩⟩
        | some n =>
          dsimp only
          by_cases hr : (n = 0 ∨ (500 ≤ n ∧ n ≤ 999))
          · rw [if_pos hr]
            constructor
            · rintro ⟨err, herr⟩
              exact Except.noConfusion herr
            · rintro ⟨_, hbad | ⟨n2, hn2, hr2⟩⟩
              · exact Option.noConfusion hbad
              · rw [Option.some.inj hn2] at hr
                exact absurd hr hr2
          · rw [if_neg hr]
            exact ⟨fun _ => ⟨hsw, Or.inr ⟨n, rfl, hr⟩⟩,
              fun _ => ⟨.valueError "node number must >= 500 and <= 999", rfl⟩⟩
      · rw [if_neg hsw]
        constructor
        · rintro ⟨err, herr⟩
          exact Except.noConfusion herr
        · rintro ⟨hsw2, _⟩
          exact absurd hsw2 hsw
    rw [hg4, hg0]
    by_cases hd : pyIsdigit e
    · rw [if_pos hd]
      have hsplit : export_split_fields (a :: b :: c :: d :: e :: rest)
          = (match (if startsWithHash a = true then
                match pyInt? (strTail a) with
                | none => Except.error (Err.valueError "invalid literal for int")
                | some nodenum =>
                  if nodenum = 0 ∨ (500 ≤ nodenum ∧ nodenum ≤ 999) then Except.ok ()
                  else Except.error (Err.valueError "node number must >= 500 and <= 999")
              else (Except.ok () : Except Err Unit)) with
            | Except.error e2 => Except.error e2
            | Except.ok _ =>
              match pyInt? e with
              | none => Except.error (Err.valueError "invalid literal for int")
              | some parent =>
                if (500 ≤ parent ∧ parent ≤ 999) ∨ parent = 0 then
                  Except.ok [a, "", b, c, d, e]
                else Except.error (Err.valueError
                  "the parent number must be 0 or >= 500 and <= 999")) := by
        simp only [export_split_fields,
          show (a :: b :: c :: d :: e :: rest).get? 4 = some e from rfl, hd]
        rfl
      rw [hsplit]
      cases hnc : (if startsWithHash a = true then
          match pyInt? (strTail a) with
          | none => Except.error (Err.valueError "invalid literal for int")
          | some nodenum =>
            if nodenum = 0 ∨ (500 ≤ nodenum ∧ nodenum ≤ 999) then Except.ok ()
            else Except.error (Err.valueError "node number must >= 500 and <= 999")
        else (Except.ok () : Except Err Unit)) with
      | error err =>
        exact ⟨fun _ => Or.inr (Or.inr (Or.inl (hnode.mp ⟨err, hnc⟩))),
          fun _ => ⟨err, rfl⟩⟩
      | ok u =>
        dsimp only
        cases hpi : pyInt? e with
        | none =>
          exact ⟨fun _ => Or.inr (Or.inr (Or.inr (Or.inl rfl))),
            fun _ => ⟨.valueError "invalid literal for int", rfl⟩⟩
        | some p =>
          dsimp only
          by_cases hpr : ((500 ≤ p ∧ p ≤ 999) ∨ p = 0)
          · rw [if_pos hpr]
            constructor
            · rintro ⟨err, herr⟩
              exact Except.noConfusion herr
            · rintro (h5 | ⟨_, hdd⟩ | hnb | hpn | ⟨q, hq, hqr⟩)
              · exact absurd h5 hlen
              · rw [hd] at hdd
                exact Bool.noConfusion hdd
              · obtain ⟨err, herr⟩ := hnode.mpr hnb
                rw [hnc] at herr
                exact Except.noConfusion herr
              · exact Option.noConfusion hpn
              · rw [Option.some.inj hq] at hpr
                exact absurd hpr hqr
          · rw [if_neg hpr]
            exact ⟨fun _ => Or.inr (Or.inr (Or.inr (Or.inr ⟨p, rfl, hpr⟩))),
              fun _ => ⟨.valueError "the parent number must be 0 or >= 500 and <= 999", rfl⟩⟩
    · have hdf : pyIsdigit e = false := Bool.eq_false_iff.mpr hd
      rw [if_neg hd]
      rcases rest with _ | ⟨f, rest'⟩
      · have hsplit : export_split_fields [a, b, c, d, e]
            = (match (if startsWithHash a = true then
                  match pyInt? (strTail a) with
                  | none => Except.error (Err.valueError "invalid literal for int")
                  | some nodenum =>
                    if nodenum = 0 ∨ (500 ≤ nodenum ∧ nodenum ≤ 999) then Except.ok ()
                    else Except.error (Err.valueError "node number must >= 500 and <= 999")
                else (Except.ok () : Except Err Unit)) with
              | Except.error e2 => Except.error e2
              | Except.ok _ => (Except.error Err.indexError : Except Err (List String))) := by
          simp only [export_split_fields,
            show ([a, b, c, d, e] : List String).get? 4 = some e from rfl, hdf]
          rfl
        rw [hsplit]
        constructor
        · intro _
          exact Or.inr (Or.inl ⟨rfl, hdf⟩)
        · intro _
          cases hnc : (if startsWithHash a = true then
              match pyInt? (strTail a) with
              | none => Except.error (Err.valueError "invalid literal for int")
              | some nodenum =>
                if nodenum = 0 ∨ (500 ≤ nodenum ∧ nodenum ≤ 999) then Except.ok ()
                else Except.error (Err.valueError "node number must >= 500 and <= 999")
            else (Except.ok () : Except Err Unit)) with
          | error err => exact ⟨err, rfl⟩
          | ok u => exact ⟨.indexError, rfl⟩
      · have hlen6 : ¬((a :: b :: c :: d :: e :: f :: rest').length = 5) := by
          simp [List.length]
        have hsplit : export_split_fields (a :: b :: c :: d :: e :: f :: rest')
            = (match (if startsWithHash a = true then
                  match pyInt? (strTail a) with
                  | none => Except.error (Err.valueError "invalid literal for int")
                  | some nodenum =>
                    if nodenum = 0 ∨ (500 ≤ nodenum ∧ nodenum ≤ 999) then Except.ok ()
                    else Except.error (Err.valueError "node number must >= 500 and <= 999")
                else (Except.ok () : Except Err Unit)) with
              | Except.error e2 => Except.error e2
              | Except.ok _ =>
                match pyInt? f with
                | none => Except.error (Err.valueError "invalid literal for int")
                | some parent =>
                  if (500 ≤ parent ∧ parent ≤ 999) ∨ parent = 0 then
                    Except.ok [a, b, c, d, e, f]
                  else Except.error (Err.valueError
                    "the parent number must be 0 or >= 500 and <= 999")) := by
          simp only [export_split_fields,
            show (a :: b :: c :: d :: e :: f :: rest').get? 4 = some e from rfl, hdf]
          rfl
        have hg5 : (a :: b :: c :: d :: e :: f :: rest').getD 5 "" = f := rfl
        rw [hg5, hsplit]
        cases hnc : (if startsWithHash a = true then
            match pyInt? (strTail a) with
            | none => Except.error (Err.valueError "invalid literal for int")
            | some nodenum =>
              if nodenum = 0 ∨ (500 ≤ nodenum ∧ nodenum ≤ 999) then Except.ok ()
              else Except.error (Err.valueError "node number must >= 500 and <= 999")
          else (Except.ok () : Except Err Unit)) with
        | error err =>
          exact ⟨fun _ => Or.inr (Or.inr (Or.inl (hnode.mp ⟨err, hnc⟩))),
            fun _ => ⟨err, rfl⟩⟩
        | ok u =>
          dsimp only
          cases hpi : pyInt? f with
          | none =>
            exact ⟨fun _ => Or.inr (Or.inr (Or.inr (Or.inl rfl))),
              fun _ => ⟨.valueError "invalid literal for int", rfl⟩⟩
          | some p =>
            dsimp only
            by_cases hpr : ((500 ≤ p ∧ p ≤ 999) ∨ p = 0)
            · rw [if_pos hpr]
              constructor
              · rintro ⟨err, herr⟩
                exact Except.noConfusion herr
              · rintro (h5 | ⟨h5, _⟩ | hnb | hpn | ⟨q, hq, hqr⟩)
                · exact absurd h5 hlen
                · exact absurd h5 hlen6
                · obtain ⟨err, herr⟩ := hnode.mpr hnb
                  rw [hnc] at herr
                  exact Except.noConfusion herr
                · exact Option.noConfusion hpn
                · rw [Option.some.inj hq] at hpr
                  exact absurd hpr hqr
            · rw [if_neg hpr]
              exact ⟨fun _ => Or.inr (Or.inr (Or.inr (Or.inr ⟨p, rfl, hpr⟩))),
                fun _ => ⟨.valueError "the parent number must be 0 or >= 500 and <= 999", rfl⟩⟩

/-- **C4 (amended).** For the comment-truncated, whitespace-split field list of
a record line, `export_split` fails exactly when: there are fewer than five
fields; there are exactly five fields and the fifth is non-numeric (so the
parent field is missing); a `#`-declared node id does not parse as an integer
or lies outside `{0} ∪ [500, 999]`; or the parent field (the fifth field when
numeric, else the sixth) does not parse as an integer or lies outside
`{0} ∪ [500, 999]`.  An odd trailing secondary-edge field count is *not* an
error — everything past the parent field is ignored — and an accepted line
returns the first six fields, with a dummy lemma inserted when the fifth field
is numeric. -/
theorem export_split_error_iff (line : String) (fields : List String)
    (hf : pysplit (String.mk (cutComment line.toList)) = fields) :
    ((∃ err, export_split line = .error err) ↔
      (fields.length < 5
        ∨ (fields.length = 5 ∧ pyIsdigit (fields.getD 4 "") = false)
        ∨ (startsWithHash (fields.getD 0 "") = true ∧
            (pyInt? (strTail (fields.getD 0 "")) = none ∨
              ∃ n, pyInt? (strTail (fields.getD 0 "")) = some n ∧
                ¬(n = 0 ∨ (500 ≤ n ∧ n ≤ 999))))
        ∨ (pyInt? (if pyIsdigit (fields.getD 4 "") then fields.getD 4 ""
              else fields.getD 5 "") = none ∨
            ∃ p, pyInt? (if pyIsdigit (fields.getD 4 "") then fields.getD 4 ""
                else fields.getD 5 "") = some p ∧
              ¬((500 ≤ p ∧ p ≤ 999) ∨ p = 0)))) ∧
    (∀ fs, export_split line = .ok fs →
      fs = (if pyIsdigit (fields.getD 4 "") then
        fields.take 1 ++ "" :: fields.drop 1 else fields).take 6) := by
  subst hf
  simp only [export_split]
  exact ⟨export_split_fields_error_iff _, fun fs h => export_split_fields_ok_shape _ fs h⟩

/-- **C4 counterexample.** A record line with one trailing field after the
parent number — an odd secondary-edge field count, which the claim calls a
`FormatError` — is accepted without complaint: the split succeeds and
everything past the parent number is dropped. -/
theorem secondary_edge_odd_accepted :
    export_split "aword atag amorph afunc 500 600"
      = .ok ["aword", "", "atag", "amorph", "afunc", "500"] := by decide

/-- Witness for the amended C4 theorem at a concrete line (four fields only:
the failure condition holds through its first disjunct). -/
theorem export_split_error_iff_witness :
    ((∃ err, export_split "w t m f" = .error err) ↔
      ((["w", "t", "m", "f"] : List String).length < 5
        ∨ ((["w", "t", "m", "f"] : List String).length = 5 ∧
            pyIsdigit ((["w", "t", "m", "f"] : List String).getD 4 "") = false)
        ∨ (startsWithHash ((["w", "t", "m", "f"] : List String).getD 0 "") = true ∧
            (pyInt? (strTail ((["w", "t", "m", "f"] : List String).getD 0 "")) = none ∨
              ∃ n, pyInt? (strTail ((["w", "t", "m", "f"] : List String).getD 0 ""))
                  = some n ∧ ¬(n = 0 ∨ (500 ≤ n ∧ n ≤ 999))))
        ∨ (pyInt? (if pyIsdigit ((["w", "t", "m", "f"] : List String).getD 4 "") then
              (["w", "t", "m", "f"] : List String).getD 4 ""
              else (["w", "t", "m", "f"] : List String).getD 5 "") = none ∨
            ∃ p, pyInt? (if pyIsdigit ((["w", "t", "m", "f"] : List String).getD 4 "") then
                (["w", "t", "m", "f"] : List String).getD 4 ""
                else (["w", "t", "m", "f"] : List String).getD 5 "") = some p ∧
              ¬((500 ≤ p ∧ p ≤ 999) ∨ p = 0)))) ∧
    (∀ fs, export_split "w t m f" = .ok fs →
      fs = (if pyIsdigit ((["w", "t", "m", "f"] : List String).getD 4 "") then
        (["w", "t", "m", "f"] : List String).take 1 ++
          "" :: (["w", "t", "m", "f"] : List String).drop 1
        else (["w", "t", "m", "f"] : List String)).take 6) :=
  export_split_error_iff "w t m f" ["w", "t", "m", "f"] (by decide)

/-! ### C5: asymmetric POS-tag filtering -/

theorem paramGetLabels_dlfl (p : Param) :
    paramGetLabels p "DELETE_LABEL_FOR_LENGTH" = p.DELETE_LABEL_FOR_LENGTH := by
  rw [paramGetLabels, if_neg (by decide), if_pos rfl]

theorem paramGetLabels_dl (p : Param) :
    paramGetLabels p "DELETE_LABEL" = p.DELETE_LABEL := by
  rw [paramGetLabels, if_pos rfl]

/-- The empty extractor state satisfies the state invariant. -/
theorem stGood_empty (sentence : List Fields) (labels : Int → Option String)
    (param : Param) (deletePos : String) :
    StGood sentence labels param deletePos ⟨[], ∅⟩ :=
  ⟨fun e he => absurd he (Finset.not_mem_empty e),
   fun ent hent => absurd hent (List.not_mem_nil ent)⟩

/-- **C5.** POS-tag bookkeeping is filtered asymmetrically while yields use
only `DELETE_LABEL`: processing a sentence with the gold key
`"DELETE_LABEL_FOR_LENGTH"` counts a terminal's `(position, tag)` pair only
when its tag is outside `DELETE_LABEL_FOR_LENGTH` (and counts every
such non-deleted terminal child of the root), processing with the test key
`"DELETE_LABEL"` counts it only when its tag is outside `DELETE_LABEL`; the
collected yields are identical on the two sides, and every terminal position
in any yield comes from a record whose tag survives the `DELETE_LABEL`
filter. -/
theorem pos_filter_asymmetric (sentence : List Fields) (labels : Int → Option String)
    (param : Param) (fuel : Nat) (stK stA : PState)
    (hk : export_process_sentence sentence labels param "DELETE_LABEL_FOR_LENGTH"
      fuel 0 ⟨[], ∅⟩ = .ok stK)
    (ha : export_process_sentence sentence labels param "DELETE_LABEL"
      fuel 0 ⟨[], ∅⟩ = .ok stA) :
    (∀ e ∈ stK.posTags, e.2 ∉ param.DELETE_LABEL_FOR_LENGTH) ∧
    (∀ e ∈ stA.posTags, e.2 ∉ param.DELETE_LABEL) ∧
    (∀ i f, (i, f) ∈ sentence.enum → pyInt? (parentF f) = some 0 →
      startsWithHash (nodeF f) = false →
      (tagF f ∉ param.DELETE_LABEL_FOR_LENGTH → (i, tagF f) ∈ stK.posTags) ∧
      (tagF f ∉ param.DELETE_LABEL → (i, tagF f) ∈ stA.posTags)) ∧
    stK.tuples = stA.tuples ∧
    (∀ ent ∈ stK.tuples, ∀ q ∈ ent.2.2, ∃ i f, q = i + 1 ∧
      sentence[i]? = some f ∧ tagF f ∉ param.DELETE_LABEL) := by
  have hgK := export_process_sentence_good sentence labels param
    "DELETE_LABEL_FOR_LENGTH" fuel 0 _ stK hk (stGood_empty _ _ _ _)
  have hgA := export_process_sentence_good sentence labels param
    "DELETE_LABEL" fuel 0 _ stA ha (stGood_empty _ _ _ _)
  have hmK := export_process_sentence_mono sentence labels param
    "DELETE_LABEL_FOR_LENGTH" fuel 0 _ stK hk
  have hmA := export_process_sentence_mono sentence labels param
    "DELETE_LABEL" fuel 0 _ stA ha
  have hcovK := export_process_sentence_covers sentence labels param
    "DELETE_LABEL_FOR_LENGTH" fuel 0 _ stK hk 0 hmK.2.2
  have hcovA := export_process_sentence_covers sentence labels param
    "DELETE_LABEL" fuel 0 _ stA ha 0 hmA.2.2
  have hK : Covers sentence param "DELETE_LABEL_FOR_LENGTH" stK 0 := by
    rcases hcovK with hin | hcov
    · rw [lookupA] at hin
      simp at hin
    · exact hcov
  have hA : Covers sentence param "DELETE_LABEL" stA 0 := by
    rcases hcovA with hin | hcov
    · rw [lookupA] at hin
      simp at hin
    · exact hcov
  have hsplit := export_process_sentence_split sentence labels param param
    "DELETE_LABEL_FOR_LENGTH" "DELETE_LABEL" rfl fuel 0 [] ∅ ∅
  rw [hk, ha] at hsplit
  refine ⟨?_, ?_, ?_, Except.ok.inj hsplit, ?_⟩
  · intro e he
    obtain ⟨f, _, _, _, hnot, _⟩ := hgK.1 e he
    rw [paramGetLabels_dlfl] at hnot
    exact hnot
  · intro e he
    obtain ⟨f, _, _, _, hnot, _⟩ := hgA.1 e he
    rw [paramGetLabels_dl] at hnot
    exact hnot
  · intro i f hif hp hsw
    constructor
    · intro htag
      exact hK i f hif hp hsw (by rw [paramGetLabels_dlfl]; exact htag)
    · intro htag
      exact hA i f hif hp hsw (by rw [paramGetLabels_dl]; exact htag)
  · intro ent hent q hq
    obtain ⟨i, f, h1, h2, _, h4, _⟩ := (hgK.2 ent hent).2 q hq
    exact ⟨i, f, h1, h2, h4⟩

/-- The parameter set deleting the tag `PUNCT` for length computation only. -/
def dlflParam : Param := { DELETE_LABEL_FOR_LENGTH := {"PUNCT"} }

/-- Witness for C5 at a concrete two-terminal sentence: the gold-side POS set
drops the `PUNCT` terminal, the test side keeps it, the yields agree. -/
theorem pos_filter_asymmetric_witness :
    (∀ e ∈ (⟨[(0, ("VROOT", {2, 1}))], {(0, "T")}⟩ : PState).posTags,
      e.2 ∉ dlflParam.DELETE_LABEL_FOR_LENGTH) ∧
    (∀ e ∈ (⟨[(0, ("VROOT", {2, 1}))], {(1, "PUNCT"), (0, "T")}⟩ : PState).posTags,
      e.2 ∉ dlflParam.DELETE_LABEL) ∧
    (∀ i f, (i, f) ∈ ([["w1", "", "T", "m", "f", "0"],
        ["w2", "", "PUNCT", "m", "f", "0"]] : List Fields).enum →
      pyInt? (parentF f) = some 0 → startsWithHash (nodeF f) = false →
      (tagF f ∉ dlflParam.DELETE_LABEL_FOR_LENGTH →
        (i, tagF f) ∈ (⟨[(0, ("VROOT", {2, 1}))], {(0, "T")}⟩ : PState).posTags) ∧
      (tagF f ∉ dlflParam.DELETE_LABEL →
        (i, tagF f) ∈ (⟨[(0, ("VROOT", {2, 1}))],
          {(1, "PUNCT"), (0, "T")}⟩ : PState).posTags)) ∧
    (⟨[(0, ("VROOT", {2, 1}))], {(0, "T")}⟩ : PState).tuples
      = (⟨[(0, ("VROOT", {2, 1}))], {(1, "PUNCT"), (0, "T")}⟩ : PState).tuples ∧
    (∀ ent ∈ (⟨[(0, ("VROOT", {2, 1}))], {(0, "T")}⟩ : PState).tuples,
      ∀ q ∈ ent.2.2, ∃ i f, q = i + 1 ∧
      ([["w1", "", "T", "m", "f", "0"],
        ["w2", "", "PUNCT", "m", "f", "0"]] : List Fields)[i]? = some f ∧
      tagF f ∉ dlflParam.DELETE_LABEL) :=
  pos_filter_asymmetric
    [["w1", "", "T", "m", "f", "0"], ["w2", "", "PUNCT", "m", "f", "0"]]
    (lookupA (updateAssoc [] 0 "VROOT")) dlflParam 10
    ⟨[(0, ("VROOT", {2, 1}))], {(0, "T")}⟩
    ⟨[(0, ("VROOT", {2, 1}))], {(1, "PUNCT"), (0, "T")}⟩ (by decide) (by decide)

/-! ### C6: self evaluation -/

/-- **C6 (amended).** Evaluating a file against an exact copy of itself makes
every scored sentence an exact match (gold and test signatures are equal as
multisets), so the aggregate exact-match rate is 100%; and every scored row
with a non-empty gold signature reports precision = recall = F1 = 100.  (A
scored sentence whose signature is empty — e.g. all of its bracketings
deleted — instead reports precision = recall = F1 = 0; see the
counterexample.) -/
theorem self_evaluation (data : List (Int × List String)) (param : Param)
    (fuel : Nat) (m : Metrics) (h : evaluate data data param fuel = .ok m) :
    (∀ row ∈ m.rows, row.exactMatch = true ∧
      (0 < row.sentKey →
        row.sentPrec = 100 ∧ row.sentRec = 100 ∧ row.sentFb1 = 100)) ∧
    m.totalExact = m.totalSents ∧ m.exPct = 100 := by
  obtain ⟨kr, ar, st, hkr, har, hloop, hrows, hex, hsents, hz, hexPct⟩ :=
    evaluate_ok_inv data data param fuel m h
  have hsigs : kr.sigs = ar.sigs :=
    readGo_split param "DELETE_LABEL_FOR_LENGTH" "DELETE_LABEL" fuel data
      ⟨[], []⟩ ⟨[], []⟩ kr ar rfl hkr har
  rw [hsigs] at hloop
  have hself := evalLoop_self param ar.sigs kr.tags ar.tags
    (sortInts (ar.sigs.map Prod.fst)) {} st hloop rfl
    (fun row hrow => absurd hrow (List.not_mem_nil row))
  refine ⟨?_, ?_, ?_⟩
  · intro row hrow
    exact hself.2 row (hrows ▸ hrow)
  · rw [hex, hsents]
    exact hself.1
  · rw [hexPct, hself.1, mul_div_assoc, div_self hz, mul_one]

/-- The parameter set deleting the tag `PUNCT` from yields and signatures. -/
def punctParam : Param := { DELETE_LABEL := {"PUNCT"} }

/-- **C6 counterexample.** A self evaluation violating the claim's
per-sentence 100% law: with `PUNCT` in `DELETE_LABEL`, the one sentence's only
terminal is deleted, its signature is empty, and its scored row — the
sentence passes the cutoff and the run succeeds — reports
precision = recall = F1 = 0, not 100 (the exact-match rate is still 100). -/
theorem self_eval_not_all_100 :
    evaluate [(1, ["w PUNCT m f 0"])] [(1, ["w PUNCT m f 0"])] punctParam 10
      = .ok ⟨[⟨1, 0, 0, 0, 0, 0, 0, 0, 0, true⟩],
          0, 0, 0, 0, 1, 1, 0, 1, 0, 0, 0, 0, 100⟩ := by decide

/-- The metrics of the self evaluation of the one-sentence witness file. -/
def selfEvalMetrics : Metrics :=
  ⟨[⟨1, 100, 100, 100, 1, 1, 1, 1, 1, true⟩],
    0, 1, 1, 1, 1, 1, 1, 1, 100, 100, 100, 100, 100⟩

/-- Witness for the amended C6 theorem at a concrete one-sentence file. -/
theorem self_evaluation_witness :
    (∀ row ∈ selfEvalMetrics.rows, row.exactMatch = true ∧
      (0 < row.sentKey →
        row.sentPrec = 100 ∧ row.sentRec = 100 ∧ row.sentFb1 = 100)) ∧
    selfEvalMetrics.totalExact = selfEvalMetrics.totalSents ∧
    selfEvalMetrics.exPct = 100 :=
  self_evaluation [(1, ["w T m f 0"])] defaultParam 10 selfEvalMetrics (by decide)

/-! ### C7: the signature invariant -/

/-- **C7 (amended).** Every bracketing placed in any sentence's signature has
a non-empty terminal-position set and stems from a node label outside
`DELETE_LABEL` (the emitted label is that label in labeled mode and the
wildcard `X` otherwise); the synthetic root (label `VROOT`) always has a
tuple entry, and it contributes a bracketing whenever `VROOT` is not deleted
*and its terminal set is non-empty* — an empty root yield is excluded even
when `VROOT` is not configured for deletion (see the counterexample). -/
theorem signature_invariant (data : List (Int × List String)) (param : Param)
    (deletePos : String) (fuel : Nat) (r : ReadResult)
    (hr : read_from_export data param deletePos fuel = .ok r)
    (sentence : List Fields) (ls : List (Int × String)) (st : PState)
    (hls : buildLabels sentence [] = some ls)
    (hproc : export_process_sentence sentence (lookupA (updateAssoc ls 0 "VROOT"))
      param deletePos fuel 0 ⟨[], ∅⟩ = .ok st) :
    (∀ e ∈ r.sigs, ∀ b ∈ e.2, b.terminals ≠ ∅ ∧
      ∃ lab, lab ∉ param.DELETE_LABEL ∧
        b.label = (if param.LABELED ≠ 0 then lab else "X")) ∧
    (∃ ts, ((0 : Int), (("VROOT" : String), ts)) ∈ st.tuples ∧
      ("VROOT" ∉ param.DELETE_LABEL → ts ≠ ∅ →
        Bracketing.mk (if param.LABELED ≠ 0 then "VROOT" else "X") ts
          ∈ buildSig param st.tuples)) := by
  rw [read_from_export] at hr
  constructor
  · have hout := readGo_out param deletePos fuel
      (fun sig => ∀ b ∈ sig, b.terminals ≠ ∅ ∧
        ∃ lab, lab ∉ param.DELETE_LABEL ∧
          b.label = (if param.LABELED ≠ 0 then lab else "X"))
      (fun _ => True)
      (by
        intro lines sentence2 ls2 st2 hmap hbl hproc2
        refine ⟨?_, trivial⟩
        intro b hb
        obtain ⟨ent, hent, hdel, hne, hbe⟩ := (mem_buildSig param st2.tuples b).mp hb
        subst hbe
        exact ⟨hne, ent.2.1, hdel, rfl⟩)
      data ⟨[], []⟩ r hr
      (fun e he => absurd he (List.not_mem_nil e))
      (fun e he => absurd he (List.not_mem_nil e))
    exact hout.1
  · have hm := export_process_sentence_mono sentence
      (lookupA (updateAssoc ls 0 "VROOT")) param deletePos fuel 0 _ st hproc
    have hgood := export_process_sentence_good sentence
      (lookupA (updateAssoc ls 0 "VROOT")) param deletePos fuel 0 _ st hproc
      (stGood_empty _ _ _ _)
    cases hv : lookupA st.tuples 0 with
    | none =>
      rw [hv] at hm
      exact absurd hm.2.2 (by simp)
    | some v =>
      have hmem := lookupA_mem hv
      have hlab := (hgood.2 (0, v) hmem).1
      rw [lookupA_updateAssoc_self] at hlab
      have v1 : v.1 = "VROOT" := (Option.some.inj hlab).symm
      refine ⟨v.2, ?_, ?_⟩
      · rw [← v1]
        exact hmem
      · intro hVdel hts
        refine (mem_buildSig param st.tuples _).mpr
          ⟨(0, ("VROOT", v.2)), ?_, hVdel, hts, rfl⟩
        rw [← v1]
        exact hmem

/-- **C7 counterexample.** An empty sentence: the root's yield is empty, and
although `VROOT` is not in the (empty) `DELETE_LABEL` set, the sentence's
signature is empty — the root bracketing is excluded without any deletion
being configured, refuting "excluded only if its label is deleted". -/
theorem empty_root_yield_excluded :
    read_from_export [(1, [])] defaultParam "DELETE_LABEL" 10
      = .ok ⟨[(1, (0 : Sig))], [(1, (∅ : Finset (Nat × String)))]⟩ ∧
    "VROOT" ∉ defaultParam.DELETE_LABEL :=
  ⟨by decide, by decide⟩

/-- Witness for the amended C7 theorem at a concrete one-sentence file. -/
theorem signature_invariant_witness :
    (∀ e ∈ (⟨[(1, ({⟨"VROOT", {1}⟩} : Sig))],
        [(1, ({(0, "T")} : Finset (Nat × String)))]⟩ : ReadResult).sigs,
      ∀ b ∈ e.2, b.terminals ≠ ∅ ∧
        ∃ lab, lab ∉ defaultParam.DELETE_LABEL ∧
          b.label = (if defaultParam.LABELED ≠ 0 then lab else "X")) ∧
    (∃ ts, ((0 : Int), (("VROOT" : String), ts))
        ∈ (⟨[(0, ("VROOT", {1}))], {(0, "T")}⟩ : PState).tuples ∧
      ("VROOT" ∉ defaultParam.DELETE_LABEL → ts ≠ ∅ →
        Bracketing.mk (if defaultParam.LABELED ≠ 0 then "VROOT" else "X") ts
          ∈ buildSig defaultParam
              (⟨[(0, ("VROOT", {1}))], {(0, "T")}⟩ : PState).tuples)) :=
  signature_invariant [(1, ["w T m f 0"])] defaultParam "DELETE_LABEL" 10
    ⟨[(1, ({⟨"VROOT", {1}⟩} : Sig))], [(1, ({(0, "T")} : Finset (Nat × String)))]⟩
    (by decide) [["w", "", "T", "m", "f", "0"]] []
    ⟨[(0, ("VROOT", {1}))], {(0, "T")}⟩ (by decide) (by decide)

/-! ### C8: guarded per-sentence divisions -/

/-- **C8.** The per-sentence derived metrics are total with guarded division:
`scoreSentence` never raises a `ZeroDivisionError` (in particular a sentence
with zero non-deleted terminals, whose signatures are empty, is scored
without a division error), and every row it emits satisfies `RowSpec` —
precision is `matched / test-total` with result 0 when the test total is 0,
recall is `matched / gold-total` with result 0 when the gold total is 0, and
F1 is the harmonic mean, 0 when precision and recall (both non-negative) sum
to 0. -/
theorem guarded_division_per_sentence (param : Param) (ks : List (Int × Sig))
    (kt : List (Int × Finset (Nat × String))) (ansS : List (Int × Sig))
    (ansT : List (Int × Finset (Nat × String))) (n : Int) (st : LoopState) :
    scoreSentence param ks kt ansS ansT n st ≠ .error .zeroDivisionError ∧
    (∀ st', scoreSentence param ks kt ansS ansT n st = .ok st' →
      (∀ row ∈ st.rows, RowSpec row ∧ 0 ≤ row.sentPrec ∧ 0 ≤ row.sentRec) →
      ∀ row ∈ st'.rows, RowSpec row ∧ 0 ≤ row.sentPrec ∧ 0 ≤ row.sentRec) := by
  constructor
  · intro h
    rcases scoreSentence_err param ks kt ansS ansT n st .zeroDivisionError h with
      h1 | h1 <;> exact Err.noConfusion h1
  · intro st' h hrows
    rcases scoreSentence_inv param ks kt ansS ansT n st st' h with
      ⟨ktags, _, _, hst⟩ | ⟨ktags, kSig, aSig, minc, atags, _, _, _, _, _, hst⟩
    · subst hst
      exact hrows
    · subst hst
      intro row hrow
      dsimp only at hrow
      rcases List.mem_append.mp hrow with hrow | hrow
      · exact hrows row hrow
      · have hrow2 := List.mem_singleton.mp hrow
        subst hrow2
        exact ⟨⟨precOf_eq kSig aSig, recOf_eq kSig aSig,
          fb1Of_eq _ _ (precOf_nonneg kSig aSig) (recOf_nonneg kSig aSig)⟩,
          precOf_nonneg kSig aSig, recOf_nonneg kSig aSig⟩

/-- Witness for C8: the scorer raises no `ZeroDivisionError` at a concrete
one-sentence store. -/
theorem guarded_division_per_sentence_witness :
    scoreSentence defaultParam [(1, ({⟨"NP", {1}⟩} : Sig))]
        [(1, ({(0, "T")} : Finset (Nat × String)))]
        [(1, ({⟨"NP", {1}⟩} : Sig))]
        [(1, ({(0, "T")} : Finset (Nat × String)))] 1 {}
      ≠ .error .zeroDivisionError :=
  (guarded_division_per_sentence defaultParam [(1, ({⟨"NP", {1}⟩} : Sig))]
    [(1, ({(0, "T")} : Finset (Nat × String)))] [(1, ({⟨"NP", {1}⟩} : Sig))]
    [(1, ({(0, "T")} : Finset (Nat × String)))] 1 {}).1

/-! ### C9: multiplicities and guard coincidence -/

/-- **C9.** Every multiplicity in every signature produced by reading an
export file is at least 1 (bracketings are only ever incremented into the
bag), so a signature's number of distinct bracketings is positive iff its
total bracketing count is positive; consequently the scorer's zero guards,
which test the distinct count, coincide with guards on the total counts used
as the precision and recall denominators. -/
theorem multiplicity_guard_coincidence (data : List (Int × List String))
    (param : Param) (deletePos : String) (fuel : Nat) (r : ReadResult)
    (hr : read_from_export data param deletePos fuel = .ok r) :
    (∀ e ∈ r.sigs, ∀ b ∈ e.2, 1 ≤ Multiset.count b e.2) ∧
    (∀ e ∈ r.sigs, 0 < e.2.toFinset.card ↔ 0 < Multiset.card e.2) ∧
    (∀ kSig aSig : Sig, precOf kSig aSig
      = if Multiset.card aSig = 0 then 0
        else 100 * (matchCount kSig aSig : ℚ) / (Multiset.card aSig : ℚ)) ∧
    (∀ kSig aSig : Sig, recOf kSig aSig
      = if Multiset.card kSig = 0 then 0
        else 100 * (matchCount kSig aSig : ℚ) / (Multiset.card kSig : ℚ)) := by
  refine ⟨?_, ?_, precOf_eq, recOf_eq⟩
  · intro e he b hb
    exact Multiset.one_le_count_iff_mem.mpr hb
  · intro e he
    exact sig_toFinset_card_pos_iff e.2

/-- Witness for C9 at a concrete one-sentence file. -/
theorem multiplicity_guard_coincidence_witness :
    (∀ e ∈ (⟨[(1, ({⟨"VROOT", {1}⟩} : Sig))],
        [(1, ({(0, "T")} : Finset (Nat × String)))]⟩ : ReadResult).sigs,
      ∀ b ∈ e.2, 1 ≤ Multiset.count b e.2) ∧
    (∀ e ∈ (⟨[(1, ({⟨"VROOT", {1}⟩} : Sig))],
        [(1, ({(0, "T")} : Finset (Nat × String)))]⟩ : ReadResult).sigs,
      0 < e.2.toFinset.card ↔ 0 < Multiset.card e.2) ∧
    (∀ kSig aSig : Sig, precOf kSig aSig
      = if Multiset.card aSig = 0 then 0
        else 100 * (matchCount kSig aSig : ℚ) / (Multiset.card aSig : ℚ)) ∧
    (∀ kSig aSig : Sig, recOf kSig aSig
      = if Multiset.card kSig = 0 then 0
        else 100 * (matchCount kSig aSig : ℚ) / (Multiset.card kSig : ℚ)) :=
  multiplicity_guard_coincidence [(1, ["w T m f 0"])] defaultParam
    "DELETE_LABEL" 10
    ⟨[(1, ({⟨"VROOT", {1}⟩} : Sig))], [(1, ({(0, "T")} : Finset (Nat × String)))]⟩
    (by decide)

/-! ### C10: deletion before relabelling in unlabeled mode -/

/-- The parameter set for unlabeled evaluation. -/
def unlabeledParam : Param := { LABELED := 0 }

/-- **C10.** Deletion is decided on original labels even in unlabeled mode:
reading with `LABELED = 0` produces exactly the wildcard relabelling of the
labeled-mode signature store (all other parameters equal); every bracketing
present in unlabeled mode carries the wildcard label `X` and a non-empty
terminal set; and every terminal position collected into any yield comes from
a record whose original tag survives the `DELETE_LABEL` filter. -/
theorem unlabeled_relabeling (p0 p1 : Param) (h0 : p0.LABELED = 0)
    (h1 : p1.LABELED ≠ 0) (hDL : p0.DELETE_LABEL = p1.DELETE_LABEL)
    (dp : String) (fuel : Nat) (data : List (Int × List String)) :
    Except.map ReadResult.sigs (read_from_export data p0 dp fuel)
      = Except.map (fun r => relabelSigs r.sigs)
          (read_from_export data p1 dp fuel) ∧
    (∀ r, read_from_export data p0 dp fuel = .ok r →
      ∀ e ∈ r.sigs, ∀ b ∈ e.2, b.label = "X" ∧ b.terminals ≠ ∅) ∧
    (∀ sentence labels st,
      export_process_sentence sentence labels p0 dp fuel 0 ⟨[], ∅⟩ = .ok st →
      ∀ ent ∈ st.tuples, ∀ q ∈ ent.2.2, ∃ i f, q = i + 1 ∧
        sentence[i]? = some f ∧ tagF f ∉ p0.DELETE_LABEL) := by
  refine ⟨?_, ?_, ?_⟩
  · rw [read_from_export, read_from_export]
    exact readGo_relabel p0 p1 h0 h1 hDL dp fuel data ⟨[], []⟩ ⟨[], []⟩ rfl
  · intro r hrr
    rw [read_from_export] at hrr
    have hout := readGo_out p0 dp fuel
      (fun sig => ∀ b ∈ sig, b.label = "X" ∧ b.terminals ≠ ∅)
      (fun _ => True)
      (by
        intro lines sentence2 ls2 st2 hmap hbl hproc2
        refine ⟨?_, trivial⟩
        intro b hb
        obtain ⟨ent, hent, hdel, hne, hbe⟩ := (mem_buildSig p0 st2.tuples b).mp hb
        subst hbe
        refine ⟨?_, hne⟩
        simp [h0])
      data ⟨[], []⟩ r hrr
      (fun e he => absurd he (List.not_mem_nil e))
      (fun e he => absurd he (List.not_mem_nil e))
    exact hout.1
  · intro sentence labels st hst ent hent q hq
    have hgood := export_process_sentence_good sentence labels p0 dp fuel 0 _ st
      hst (stGood_empty _ _ _ _)
    obtain ⟨i, f, h1, h2, _, h4, _⟩ := (hgood.2 ent hent).2 q hq
    exact ⟨i, f, h1, h2, h4⟩

/-- Witness for C10 at a concrete one-sentence file. -/
theorem unlabeled_relabeling_witness :
    Except.map ReadResult.sigs
        (read_from_export [(1, ["w T m f 0"])] unlabeledParam "DELETE_LABEL" 10)
      = Except.map (fun r => relabelSigs r.sigs)
          (read_from_export [(1, ["w T m f 0"])] defaultParam "DELETE_LABEL" 10) ∧
    (∀ r, read_from_export [(1, ["w T m f 0"])] unlabeledParam "DELETE_LABEL" 10
        = .ok r → ∀ e ∈ r.sigs, ∀ b ∈ e.2, b.label = "X" ∧ b.terminals ≠ ∅) ∧
    (∀ sentence labels st,
      export_process_sentence sentence labels unlabeledParam "DELETE_LABEL"
        10 0 ⟨[], ∅⟩ = .ok st →
      ∀ ent ∈ st.tuples, ∀ q ∈ ent.2.2, ∃ i f, q = i + 1 ∧
        sentence[i]? = some f ∧ tagF f ∉ unlabeledParam.DELETE_LABEL) :=
  unlabeled_relabeling unlabeledParam defaultParam rfl (by decide) rfl
    "DELETE_LABEL" 10 [(1, ["w T m f 0"])]

end EvalbLcfrs
